import Mathlib

/-!
Shallow embedding of the aioquic wire-format codec core
(src/aioquic/packet.py and src/aioquic/rangeset.py).

Byte buffers are modelled as `List Nat` (each element a byte value, < 256 in
the Python domain).  A pull function consumes a prefix of the remaining byte
list and returns the parsed value together with the unread remainder; a push
function produces the list of bytes written.  The `Buffer` primitives
(`pull_bytes`, `pull_uintN`, `push_uintN`) live in the repository's
`buffer.py` which is not part of the excerpt; they are modelled from the
spec's contract in section 3: "all pull/push operations advance the position
and fail distinctly when insufficient bytes remain".

Error names follow the taxonomy of spec section 7: `bufferReadError` for
truncation (`BufferReadError`), `protocolViolation` for the fixed-bit
`ValueError` raises, `valueTooLarge` for the variable-length-integer
`ValueError` raise, `frameEncodingError` for the protocol-conformance
`assert` statements which the spec (sections 4.3, 4.4 and 9) assigns to
`FrameEncodingError`, and `valueError`/`indexError` for the remaining Python
range errors.
-/

inductive Err where
  | bufferReadError
  | protocolViolation
  | frameEncodingError
  | valueTooLarge
  | valueError
  | indexError
deriving DecidableEq, Repr

/-- Modelled from the spec: `buffer.py`'s `pull_bytes` reads exactly `n`
bytes and advances, failing with `BufferReadError` when fewer remain. -/
def pull_bytes (n : Nat) (s : List Nat) : Except Err (List Nat × List Nat) :=
  if n ≤ s.length then .ok (s.take n, s.drop n) else .error .bufferReadError

/-- Big-endian byte encoding of `v` in exactly `w` bytes (the digits of
`v % 256^w`). -/
def encBe : Nat → Nat → List Nat
  | 0, _ => []
  | w + 1, v => v / 256 ^ w % 256 :: encBe w v

/-- Big-endian byte decoding with an accumulator. -/
def decBe (acc : Nat) : List Nat → Nat
  | [] => acc
  | b :: rest => decBe (acc * 256 + b) rest

/-- Modelled from the spec: `buffer.py`'s `pull_uint8`. -/
def pull_uint8 (s : List Nat) : Except Err (Nat × List Nat) :=
  match s with
  | [] => .error .bufferReadError
  | b :: r => .ok (b, r)

/-- Modelled from the spec: `buffer.py`'s fixed-width big-endian readers
(`pull_uint16`, `pull_uint32`, `pull_uint64` are `pull_uintN` at w = 2, 4, 8). -/
def pull_uintN (w : Nat) (s : List Nat) : Except Err (Nat × List Nat) :=
  match pull_bytes w s with
  | .ok (bs, r) => .ok (decBe 0 bs, r)
  | .error e => .error e

/-- Modelled from the spec: `buffer.py`'s fixed-width big-endian writers
(`push_uint8/16/32/64` are `push_uintN` at w = 1, 2, 4, 8); values out of
range fail (Python `struct.error`). -/
def push_uintN (w v : Nat) : Except Err (List Nat) :=
  if v < 256 ^ w then .ok (encBe w v) else .error .valueError

/-- OR a mask into the first byte of a byte list (the
`buf._data[start] |= i * 64` backpatch of `push_uint_var`). -/
def orFirst (m : Nat) : List Nat → List Nat
  | [] => []
  | b :: rest => (b ||| m) :: rest

/-- `pull_uint_var` (packet.py lines 99-108): the length class is the top two
bits of the first byte (`kind = first // 64`), the corresponding
`UINT_VAR_FORMATS` entry reads `2^kind` bytes big-endian and masks with
`2^(8 * 2^kind - 2) - 1`. -/
def pull_uint_var (s : List Nat) : Except Err (Nat × List Nat) :=
  match s with
  | [] => .error .bufferReadError
  | b :: _ =>
    let kind := b / 64
    match pull_bytes (2 ^ kind) s with
    | .ok (bs, r) => .ok (decBe 0 bs &&& (2 ^ (8 * 2 ^ kind - 2) - 1), r)
    | .error e => .error e

/-- `push_uint_var` (packet.py lines 111-121): the first `UINT_VAR_FORMATS`
entry whose mask covers `value` is used; the class selector `i * 64` is ORed
into the first written byte; values above `2^62 - 1` raise
`ValueError` (spec: `ValueTooLarge`). -/
def push_uint_var (v : Nat) : Except Err (List Nat) :=
  if v ≤ 0x3F then .ok (orFirst (0 * 64) (encBe 1 v))
  else if v ≤ 0x3FFF then .ok (orFirst (1 * 64) (encBe 2 v))
  else if v ≤ 0x3FFFFFFF then .ok (orFirst (2 * 64) (encBe 4 v))
  else if v ≤ 0x3FFFFFFFFFFFFFFF then .ok (orFirst (3 * 64) (encBe 8 v))
  else .error .valueTooLarge

theorem encBe_length (w v : Nat) : (encBe w v).length = w := by
  induction w generalizing v with
  | zero => rfl
  | succ w ih => simp [encBe, ih]

theorem decBe_cons (a b : Nat) (l : List Nat) :
    decBe a (b :: l) = decBe (a * 256 + b) l := rfl

theorem decBe_acc (a c : Nat) (l : List Nat) :
    decBe (a + c) l = decBe a l + c * 256 ^ l.length := by
  induction l generalizing a c with
  | nil => simp [decBe]
  | cons b t ih =>
    simp only [decBe, List.length_cons]
    have h : (a + c) * 256 + b = (a * 256 + b) + c * 256 := by ring
    rw [h, ih]
    ring

theorem decBe_encBe (w v a : Nat) :
    decBe a (encBe w v) = a * 256 ^ w + v % 256 ^ w := by
  induction w generalizing a with
  | zero => simp [encBe, decBe, Nat.mod_one]
  | succ w ih =>
    simp only [encBe, decBe_cons, ih]
    have h256 : (256 : Nat) ^ (w + 1) = 256 ^ w * 256 := by ring
    have hmod : v % 256 ^ (w + 1) = v % 256 ^ w + 256 ^ w * (v / 256 ^ w % 256) := by
      rw [h256, Nat.mod_mul]
    rw [hmod]
    ring

theorem decBe_encBe_of_lt (w v : Nat) (h : v < 256 ^ w) :
    decBe 0 (encBe w v) = v := by
  rw [decBe_encBe, Nat.mod_eq_of_lt h]
  ring

theorem pull_bytes_append (l r : List Nat) :
    pull_bytes l.length (l ++ r) = .ok (l, r) := by
  simp [pull_bytes, List.take_left, List.drop_left]

theorem pull_bytes_append_of_eq (n : Nat) (l r : List Nat) (h : l.length = n) :
    pull_bytes n (l ++ r) = .ok (l, r) := by
  subst h; exact pull_bytes_append l r

theorem pull_uintN_encBe (w v : Nat) (h : v < 256 ^ w) (r : List Nat) :
    pull_uintN w (encBe w v ++ r) = .ok (v, r) := by
  simp [pull_uintN, pull_bytes_append_of_eq w (encBe w v) r (encBe_length w v),
    decBe_encBe_of_lt w v h]

theorem orFirst_length (m : Nat) (l : List Nat) : (orFirst m l).length = l.length := by
  cases l <;> simp [orFirst]

theorem encBe_eq_one (v : Nat) : encBe 1 v = [v % 256] := by
  norm_num [encBe]

theorem encBe_eq_two (v : Nat) : encBe 2 v = [v / 256 % 256, v % 256] := by
  norm_num [encBe]

theorem encBe_eq_four (v : Nat) :
    encBe 4 v = [v / 16777216 % 256, v / 65536 % 256, v / 256 % 256, v % 256] := by
  norm_num [encBe]

theorem encBe_eq_eight (v : Nat) :
    encBe 8 v = [v / 72057594037927936 % 256, v / 281474976710656 % 256,
      v / 1099511627776 % 256, v / 4294967296 % 256, v / 16777216 % 256,
      v / 65536 % 256, v / 256 % 256, v % 256] := by
  norm_num [encBe]

theorem lor_as_add (b k : Nat) (hb : b < 64) : b ||| k * 64 = k * 64 + b := by
  rw [Nat.lor_comm, Nat.mul_comm k 64]
  have h := Nat.mul_add_lt_is_or (i := 6) hb k
  have h64 : (2 : Nat) ^ 6 = 64 := by norm_num
  rw [h64] at h
  exact h.symm

theorem mask_as_mod (x n : Nat) (h : (2:Nat) ^ n - 1 = m) : x &&& m = x % 2 ^ n := by
  rw [← h, Nat.and_pow_two_sub_one_eq_mod]

theorem pull_uint_var_class1 (v : Nat) (h : v ≤ 0x3F) (r : List Nat) :
    pull_uint_var (orFirst (0 * 64) (encBe 1 v) ++ r) = .ok (v, r) := by
  have hm : v % 256 = v := Nat.mod_eq_of_lt (by omega)
  rw [encBe_eq_one]
  simp only [orFirst, hm, List.cons_append, List.nil_append]
  rw [lor_as_add v 0 (by omega)]
  simp only [Nat.zero_mul, Nat.zero_add]
  have hk : v / 64 = 0 := by omega
  simp only [pull_uint_var, hk, pow_zero]
  rw [show v :: r = [v] ++ r from rfl, pull_bytes_append_of_eq 1 [v] r rfl]
  simp only [decBe, Nat.zero_mul, Nat.zero_add]
  rw [mask_as_mod _ 6 (by norm_num)]
  have hv : v % 2 ^ 6 = v := Nat.mod_eq_of_lt (by omega)
  rw [hv]

theorem pull_uint_var_class2 (v : Nat) (h : v ≤ 0x3FFF) (r : List Nat) :
    pull_uint_var (orFirst (1 * 64) (encBe 2 v) ++ r) = .ok (v, r) := by
  have hm : v / 256 % 256 = v / 256 := Nat.mod_eq_of_lt (by omega)
  rw [encBe_eq_two]
  simp only [orFirst, hm, List.cons_append, List.nil_append]
  rw [lor_as_add (v / 256) 1 (by omega)]
  have hk : (1 * 64 + v / 256) / 64 = 1 := by omega
  simp only [pull_uint_var, hk, pow_one]
  rw [show (1 * 64 + v / 256) :: v % 256 :: r = [1 * 64 + v / 256, v % 256] ++ r from rfl,
    pull_bytes_append_of_eq 2 [1 * 64 + v / 256, v % 256] r rfl]
  simp only [decBe]
  rw [mask_as_mod _ 14 (by norm_num)]
  have h2 : (2 : Nat) ^ 14 = 16384 := by norm_num
  rw [h2]
  have hv : ((0 * 256 + (1 * 64 + v / 256)) * 256 + v % 256) % 16384 = v := by omega
  rw [hv]

theorem pull_uint_var_class4 (v : Nat) (h : v ≤ 0x3FFFFFFF) (r : List Nat) :
    pull_uint_var (orFirst (2 * 64) (encBe 4 v) ++ r) = .ok (v, r) := by
  have hm : v / 16777216 % 256 = v / 16777216 := Nat.mod_eq_of_lt (by omega)
  rw [encBe_eq_four]
  simp only [orFirst, hm, List.cons_append, List.nil_append]
  rw [lor_as_add (v / 16777216) 2 (by omega)]
  have hk : (2 * 64 + v / 16777216) / 64 = 2 := by omega
  simp only [pull_uint_var, hk]
  have hp : (2 : Nat) ^ 2 = 4 := by norm_num
  rw [hp]
  rw [show (2 * 64 + v / 16777216) :: v / 65536 % 256 :: v / 256 % 256 :: v % 256 :: r =
    [2 * 64 + v / 16777216, v / 65536 % 256, v / 256 % 256, v % 256] ++ r from rfl,
    pull_bytes_append_of_eq 4 [2 * 64 + v / 16777216, v / 65536 % 256, v / 256 % 256,
      v % 256] r rfl]
  simp only [decBe]
  rw [mask_as_mod _ 30 (by norm_num)]
  have h2 : (2 : Nat) ^ 30 = 1073741824 := by norm_num
  rw [h2]
  have hv : ((((0 * 256 + (2 * 64 + v / 16777216)) * 256 + v / 65536 % 256) * 256 +
      v / 256 % 256) * 256 + v % 256) % 1073741824 = v := by omega
  rw [hv]

theorem pull_uint_var_class8 (v : Nat) (h : v ≤ 0x3FFFFFFFFFFFFFFF) (r : List Nat) :
    pull_uint_var (orFirst (3 * 64) (encBe 8 v) ++ r) = .ok (v, r) := by
  have hm : v / 72057594037927936 % 256 = v / 72057594037927936 :=
    Nat.mod_eq_of_lt (by omega)
  rw [encBe_eq_eight]
  simp only [orFirst, hm, List.cons_append, List.nil_append]
  rw [lor_as_add (v / 72057594037927936) 3 (by omega)]
  have hk : (3 * 64 + v / 72057594037927936) / 64 = 3 := by omega
  simp only [pull_uint_var, hk]
  have hp : (2 : Nat) ^ 3 = 8 := by norm_num
  rw [hp]
  rw [show (3 * 64 + v / 72057594037927936) :: v / 281474976710656 % 256 ::
      v / 1099511627776 % 256 :: v / 4294967296 % 256 :: v / 16777216 % 256 ::
      v / 65536 % 256 :: v / 256 % 256 :: v % 256 :: r =
    [3 * 64 + v / 72057594037927936, v / 281474976710656 % 256, v / 1099511627776 % 256,
      v / 4294967296 % 256, v / 16777216 % 256, v / 65536 % 256, v / 256 % 256,
      v % 256] ++ r from rfl,
    pull_bytes_append_of_eq 8 [3 * 64 + v / 72057594037927936, v / 281474976710656 % 256,
      v / 1099511627776 % 256, v / 4294967296 % 256, v / 16777216 % 256, v / 65536 % 256,
      v / 256 % 256, v % 256] r rfl]
  simp only [decBe]
  rw [mask_as_mod _ 62 (by norm_num)]
  have h2 : (2 : Nat) ^ 62 = 4611686018427387904 := by norm_num
  rw [h2]
  have hv : ((((((((0 * 256 + (3 * 64 + v / 72057594037927936)) * 256 +
      v / 281474976710656 % 256) * 256 + v / 1099511627776 % 256) * 256 +
      v / 4294967296 % 256) * 256 + v / 16777216 % 256) * 256 +
      v / 65536 % 256) * 256 + v / 256 % 256) * 256 + v % 256) % 4611686018427387904
      = v := by omega
  rw [hv]

/-- The variable-length integer class chosen for `v` (0, 1, 2 or 3),
matching the thresholds 0x3F, 0x3FFF, 0x3FFFFFFF of `UINT_VAR_FORMATS`. -/
def varClass (v : Nat) : Nat :=
  if v ≤ 0x3F then 0 else if v ≤ 0x3FFF then 1 else if v ≤ 0x3FFFFFFF then 2 else 3

theorem pull_push_uint_var (v : Nat) (hv : v ≤ 0x3FFFFFFFFFFFFFFF) :
    ∃ bs, push_uint_var v = .ok bs ∧ (∀ r, pull_uint_var (bs ++ r) = .ok (v, r)) ∧
      bs.length = 2 ^ varClass v ∧
      (∀ b t, bs = b :: t → b / 64 = varClass v) := by
  by_cases h1 : v ≤ 0x3F
  · refine ⟨orFirst (0 * 64) (encBe 1 v), ?_, fun r => pull_uint_var_class1 v h1 r, ?_, ?_⟩
    · simp [push_uint_var, h1]
    · simp [orFirst_length, encBe_length, varClass, h1]
    · intro b t hbt
      rw [encBe_eq_one] at hbt
      simp only [orFirst] at hbt
      rw [lor_as_add (v % 256) 0 (by omega)] at hbt
      have hb : b = 0 * 64 + v % 256 := ((List.cons.injEq _ _ _ _ ▸ hbt).1).symm
      simp [varClass, h1, hb]
      omega
  · by_cases h2 : v ≤ 0x3FFF
    · refine ⟨orFirst (1 * 64) (encBe 2 v), ?_, fun r => pull_uint_var_class2 v h2 r, ?_, ?_⟩
      · simp [push_uint_var, h1, h2]
      · simp [orFirst_length, encBe_length, varClass, h1, h2]
      · intro b t hbt
        rw [encBe_eq_two] at hbt
        simp only [orFirst] at hbt
        rw [lor_as_add (v / 256 % 256) 1 (by omega)] at hbt
        have hb : b = 1 * 64 + v / 256 % 256 := ((List.cons.injEq _ _ _ _ ▸ hbt).1).symm
        simp [varClass, h1, h2, hb]
        omega
    · by_cases h3 : v ≤ 0x3FFFFFFF
      · refine ⟨orFirst (2 * 64) (encBe 4 v), ?_, fun r => pull_uint_var_class4 v h3 r, ?_, ?_⟩
        · simp [push_uint_var, h1, h2, h3]
        · simp [orFirst_length, encBe_length, varClass, h1, h2, h3]
        · intro b t hbt
          rw [encBe_eq_four] at hbt
          simp only [orFirst] at hbt
          rw [lor_as_add (v / 16777216 % 256) 2 (by omega)] at hbt
          have hb : b = 2 * 64 + v / 16777216 % 256 :=
            ((List.cons.injEq _ _ _ _ ▸ hbt).1).symm
          simp [varClass, h1, h2, h3, hb]
          omega
      · refine ⟨orFirst (3 * 64) (encBe 8 v), ?_, fun r => pull_uint_var_class8 v hv r, ?_, ?_⟩
        · simp [push_uint_var, h1, h2, h3, hv]
        · simp [orFirst_length, encBe_length, varClass, h1, h2, h3]
        · intro b t hbt
          rw [encBe_eq_eight] at hbt
          simp only [orFirst] at hbt
          rw [lor_as_add (v / 72057594037927936 % 256) 3 (by omega)] at hbt
          have hb : b = 3 * 64 + v / 72057594037927936 % 256 :=
            ((List.cons.injEq _ _ _ _ ▸ hbt).1).symm
          simp [varClass, h1, h2, h3, hb]
          omega

/-- C3: for every value v with 0 ≤ v ≤ 2^62-1, `push_uint_var` followed by
`pull_uint_var` on the produced bytes returns v, `push_uint_var` emits the
smallest length class whose mask covers v (1 byte for v ≤ 0x3F, 2 bytes for
v ≤ 0x3FFF, 4 bytes for v ≤ 0x3FFFFFFF, 8 bytes otherwise), and the class
selector sits in the top two bits of the first byte. -/
theorem c3_uint_var_round_trip (v : Nat) (hv : v ≤ 2 ^ 62 - 1) :
    ∃ bs, push_uint_var v = .ok bs ∧
      (∀ r, pull_uint_var (bs ++ r) = .ok (v, r)) ∧
      bs.length = (if v ≤ 0x3F then 1 else if v ≤ 0x3FFF then 2
        else if v ≤ 0x3FFFFFFF then 4 else 8) ∧
      (∀ b t, bs = b :: t →
        b / 64 = (if v ≤ 0x3F then 0 else if v ≤ 0x3FFF then 1
          else if v ≤ 0x3FFFFFFF then 2 else 3)) := by
  have h : v ≤ 0x3FFFFFFFFFFFFFFF := by omega
  obtain ⟨bs, h1, h2, h3, h4⟩ := pull_push_uint_var v h
  refine ⟨bs, h1, h2, ?_, ?_⟩
  · rw [h3]; unfold varClass; split_ifs <;> norm_num
  · intro b t hbt; rw [h4 b t hbt]; unfold varClass; rfl

/-- Witness for C3 at v = 16384. -/
theorem c3_uint_var_round_trip_witness :
    16384 ≤ 2 ^ 62 - 1 ∧
      ∃ bs, push_uint_var 16384 = .ok bs ∧
        (∀ r, pull_uint_var (bs ++ r) = .ok (16384, r)) ∧
        bs.length = (if 16384 ≤ 0x3F then 1 else if 16384 ≤ 0x3FFF then 2
          else if 16384 ≤ 0x3FFFFFFF then 4 else 8) ∧
        (∀ b t, bs = b :: t →
          b / 64 = (if 16384 ≤ 0x3F then 0 else if 16384 ≤ 0x3FFF then 1
            else if 16384 ≤ 0x3FFFFFFF then 2 else 3)) :=
  ⟨by norm_num, c3_uint_var_round_trip 16384 (by norm_num)⟩

/-- A `RangeSet` (rangeset.py): an ordered list of half-open integer ranges
`[start, stop)`, each modelled as a pair `(start, stop) : Int × Int`. -/
structure RangeSet where
  ranges : List (Int × Int)
deriving DecidableEq, Repr

/-- The absorption loop of `RangeSet.add` (rangeset.py lines 32-34): while
the next range starts at or before the widened stop, widen the stop to cover
it and drop it. Returns the final stop and the surviving suffix. -/
def mergeAbsorb (stop : Int) : List (Int × Int) → Int × List (Int × Int)
  | [] => (stop, [])
  | r :: rest =>
    if r.1 ≤ stop then mergeAbsorb (max r.2 stop) rest else (stop, r :: rest)

/-- The scan of `RangeSet.add` (rangeset.py lines 19-39): insert before the
first range starting after `stop`, skip ranges ending before `start`,
otherwise merge (widening with `min`/`max` and absorbing successors). -/
def addAux (start stop : Int) : List (Int × Int) → List (Int × Int)
  | [] => [(start, stop)]
  | r :: rest =>
    if stop < r.1 then (start, stop) :: r :: rest
    else if start > r.2 then r :: addAux start stop rest
    else
      let p := mergeAbsorb (max stop r.2) rest
      (min start r.1, p.1) :: p.2

/-- `RangeSet.add(start, stop)` (rangeset.py lines 14-39).  The Python method
asserts `stop > start` as a caller contract; theorems carry that hypothesis. -/
def RangeSet.add (rs : RangeSet) (start stop : Int) : RangeSet :=
  ⟨addAux start stop rs.ranges⟩

/-- The RangeSet invariant of spec section 4.5: every range is non-empty and
the ranges are sorted ascending, pairwise disjoint and non-adjacent
(the stop of an earlier range is strictly below the start of a later one). -/
def RangeSet.WellFormed (rs : RangeSet) : Prop :=
  (∀ r ∈ rs.ranges, r.1 < r.2) ∧ rs.ranges.Pairwise (fun a b => a.2 < b.1)

/-- The set of packet numbers covered by a RangeSet. -/
def RangeSet.covers (rs : RangeSet) (x : Int) : Prop :=
  ∃ r ∈ rs.ranges, r.1 ≤ x ∧ x < r.2

theorem mergeAbsorb_le (s0 : Int) (l : List (Int × Int)) :
    s0 ≤ (mergeAbsorb s0 l).1 := by
  induction l generalizing s0 with
  | nil => simp [mergeAbsorb]
  | cons r rest ih =>
    simp only [mergeAbsorb]
    split
    · exact le_trans (le_max_right r.2 s0) (ih (max r.2 s0))
    · simp

theorem mergeAbsorb_sublist (s0 : Int) (l : List (Int × Int)) :
    (mergeAbsorb s0 l).2.Sublist l := by
  induction l generalizing s0 with
  | nil => simp [mergeAbsorb]
  | cons r rest ih =>
    simp only [mergeAbsorb]
    split
    · exact .cons r (ih (max r.2 s0))
    · simp

theorem mergeAbsorb_lt_starts (s0 : Int) (l : List (Int × Int))
    (hwf : ∀ r ∈ l, r.1 < r.2) (hp : l.Pairwise (fun a b => a.2 < b.1)) :
    ∀ r ∈ (mergeAbsorb s0 l).2, (mergeAbsorb s0 l).1 < r.1 := by
  induction l generalizing s0 with
  | nil => simp [mergeAbsorb]
  | cons r rest ih =>
    simp only [mergeAbsorb]
    split
    · exact ih (max r.2 s0) (fun x hx => hwf x (List.mem_cons_of_mem r hx))
        (List.Pairwise.of_cons hp)
    · rename_i hgt
      push_neg at hgt
      intro x hx
      rcases List.mem_cons.mp hx with h | h
      · exact h ▸ hgt
      · have h1 : r.2 < x.1 := (List.pairwise_cons.mp hp).1 x h
        have h2 : r.1 < r.2 := hwf r (List.mem_cons_self r rest)
        omega

theorem mergeAbsorb_cover (s0 : Int) (l : List (Int × Int))
    (hwf : ∀ r ∈ l, r.1 < r.2) (hp : l.Pairwise (fun a b => a.2 < b.1)) :
    ∀ x : Int, (x < s0 ∨ ∃ r ∈ l, r.1 ≤ x ∧ x < r.2) ↔
      (x < (mergeAbsorb s0 l).1 ∨ ∃ r ∈ (mergeAbsorb s0 l).2, r.1 ≤ x ∧ x < r.2) := by
  induction l generalizing s0 with
  | nil => simp [mergeAbsorb]
  | cons r rest ih =>
    intro x
    simp only [mergeAbsorb]
    split
    · rename_i hle
      rw [← ih (max r.2 s0) (fun y hy => hwf y (List.mem_cons_of_mem r hy))
          (List.Pairwise.of_cons hp) x]
      constructor
      · rintro (h | ⟨y, hy, h1, h2⟩)
        · left; omega
        · rcases List.mem_cons.mp hy with rfl | hy'
          · left; omega
          · right; exact ⟨y, hy', h1, h2⟩
      · rintro (h | ⟨y, hy, h1, h2⟩)
        · rcases lt_or_le x s0 with h' | h'
          · left; exact h'
          · right
            refine ⟨r, List.mem_cons_self r rest, ?_, ?_⟩ <;> omega
        · right; exact ⟨y, List.mem_cons_of_mem r hy, h1, h2⟩
    · simp

theorem addAux_starts_lb (start stop c : Int) (l : List (Int × Int))
    (h1 : c < start) (h2 : ∀ r ∈ l, c < r.1) :
    ∀ x ∈ addAux start stop l, c < x.1 := by
  induction l with
  | nil =>
    intro x hx
    simp only [addAux, List.mem_singleton] at hx
    subst hx; exact h1
  | cons r rest ih =>
    intro x hx
    simp only [addAux] at hx
    split at hx
    · rcases List.mem_cons.mp hx with rfl | hx'
      · exact h1
      · exact h2 x hx'
    · split at hx
      · rcases List.mem_cons.mp hx with heq | hx'
        · rw [heq]; exact h2 r (List.mem_cons_self r rest)
        · exact ih (fun y hy => h2 y (List.mem_cons_of_mem r hy)) x hx'
      · rcases List.mem_cons.mp hx with rfl | hx'
        · have := h2 r (List.mem_cons_self r rest)
          simp only [lt_min_iff]
          exact ⟨h1, this⟩
        · have hmem : x ∈ rest :=
            (mergeAbsorb_sublist (max stop r.2) rest).mem hx'
          exact h2 x (List.mem_cons_of_mem r hmem)

theorem addAux_wf (start stop : Int) (l : List (Int × Int))
    (hwf : ∀ r ∈ l, r.1 < r.2) (hp : l.Pairwise (fun a b => a.2 < b.1))
    (h : start < stop) :
    (∀ r ∈ addAux start stop l, r.1 < r.2) ∧
      (addAux start stop l).Pairwise (fun a b => a.2 < b.1) := by
  induction l with
  | nil =>
    constructor
    · intro r hr
      simp only [addAux, List.mem_singleton] at hr
      subst hr; exact h
    · simp [addAux]
  | cons r rest ih =>
    have hwf_rest : ∀ y ∈ rest, y.1 < y.2 := fun y hy => hwf y (List.mem_cons_of_mem r hy)
    have hp_rest : rest.Pairwise (fun a b => a.2 < b.1) := List.Pairwise.of_cons hp
    have hr_rest : ∀ y ∈ rest, r.2 < y.1 := (List.pairwise_cons.mp hp).1
    have hr_wf : r.1 < r.2 := hwf r (List.mem_cons_self r rest)
    simp only [addAux]
    split
    · rename_i hlt
      constructor
      · intro x hx
        rcases List.mem_cons.mp hx with rfl | hx'
        · exact h
        · exact hwf x hx'
      · rw [List.pairwise_cons]
        refine ⟨?_, hp⟩
        intro y hy
        rcases List.mem_cons.mp hy with rfl | hy'
        · exact hlt
        · have := hr_rest y hy'
          omega
    · split
      · rename_i hno hgt
        obtain ⟨ihwf, ihp⟩ := ih hwf_rest hp_rest
        constructor
        · intro x hx
          rcases List.mem_cons.mp hx with rfl | hx'
          · exact hr_wf
          · exact ihwf x hx'
        · rw [List.pairwise_cons]
          refine ⟨?_, ihp⟩
          exact addAux_starts_lb start stop r.2 rest (by omega) hr_rest
      · rename_i hno1 hno2
        push_neg at hno1 hno2
        have habs := mergeAbsorb_le (max stop r.2) rest
        have hlt := mergeAbsorb_lt_starts (max stop r.2) rest hwf_rest hp_rest
        have hsub := mergeAbsorb_sublist (max stop r.2) rest
        constructor
        · intro x hx
          rcases List.mem_cons.mp hx with rfl | hx'
          · simp only [min_lt_iff]
            left; omega
          · exact hwf_rest x (hsub.mem hx')
        · rw [List.pairwise_cons]
          exact ⟨hlt, hp_rest.sublist hsub⟩

theorem cover_merge_arith (start stop x r1 r2 M m : Int) (hno1 : r1 ≤ stop)
    (hno2 : start ≤ r2) (hwf : r1 < r2) (hM : M = stop ∨ M = r2)
    (hm : m = start ∨ m = r1) (h1 : m ≤ x) (h2 : x < M) :
    (r1 ≤ x ∧ x < r2) ∨ (start ≤ x ∧ x < stop) := by
  rcases hM with rfl | rfl <;> rcases hm with rfl | rfl <;> omega

theorem addAux_cover (start stop : Int) (l : List (Int × Int))
    (hwf : ∀ r ∈ l, r.1 < r.2) (hp : l.Pairwise (fun a b => a.2 < b.1))
    (_h : start < stop) :
    ∀ x : Int, (∃ r ∈ addAux start stop l, r.1 ≤ x ∧ x < r.2) ↔
      ((∃ r ∈ l, r.1 ≤ x ∧ x < r.2) ∨ (start ≤ x ∧ x < stop)) := by
  induction l with
  | nil =>
    intro x
    simp only [addAux, List.mem_singleton, List.not_mem_nil]
    constructor
    · rintro ⟨r, rfl, h1, h2⟩
      right; exact ⟨h1, h2⟩
    · rintro (⟨r, hr, _⟩ | ⟨h1, h2⟩)
      · exact absurd hr (by simp)
      · exact ⟨(start, stop), rfl, h1, h2⟩
  | cons r rest ih =>
    have hwf_rest : ∀ y ∈ rest, y.1 < y.2 := fun y hy => hwf y (List.mem_cons_of_mem r hy)
    have hp_rest : rest.Pairwise (fun a b => a.2 < b.1) := List.Pairwise.of_cons hp
    have hr_rest : ∀ y ∈ rest, r.2 < y.1 := (List.pairwise_cons.mp hp).1
    have hr_wf : r.1 < r.2 := hwf r (List.mem_cons_self r rest)
    intro x
    simp only [addAux]
    split
    · rename_i hlt
      constructor
      · rintro ⟨y, hy, h1, h2⟩
        rcases List.mem_cons.mp hy with rfl | hy'
        · right; exact ⟨h1, h2⟩
        · left; exact ⟨y, hy', h1, h2⟩
      · rintro (⟨y, hy, h1, h2⟩ | ⟨h1, h2⟩)
        · exact ⟨y, List.mem_cons_of_mem _ hy, h1, h2⟩
        · exact ⟨(start, stop), List.mem_cons_self _ _, h1, h2⟩
    · split
      · rename_i hno hgt
        constructor
        · rintro ⟨y, hy, h1, h2⟩
          rcases List.mem_cons.mp hy with rfl | hy'
          · left; exact ⟨y, List.mem_cons_self y rest, h1, h2⟩
          · rcases (ih hwf_rest hp_rest x).mp ⟨y, hy', h1, h2⟩ with hc | hc
            · left
              obtain ⟨z, hz, hz1, hz2⟩ := hc
              exact ⟨z, List.mem_cons_of_mem r hz, hz1, hz2⟩
            · right; exact hc
        · rintro (⟨y, hy, h1, h2⟩ | ⟨h1, h2⟩)
          · rcases List.mem_cons.mp hy with rfl | hy'
            · exact ⟨y, List.mem_cons_self y _, h1, h2⟩
            · obtain ⟨z, hz, hz1, hz2⟩ :=
                (ih hwf_rest hp_rest x).mpr (Or.inl ⟨y, hy', h1, h2⟩)
              exact ⟨z, List.mem_cons_of_mem r hz, hz1, hz2⟩
          · obtain ⟨z, hz, hz1, hz2⟩ := (ih hwf_rest hp_rest x).mpr (Or.inr ⟨h1, h2⟩)
            exact ⟨z, List.mem_cons_of_mem r hz, hz1, hz2⟩
      · rename_i hno1 hno2
        push_neg at hno1 hno2
        have habs := mergeAbsorb_le (max stop r.2) rest
        have hcov := mergeAbsorb_cover (max stop r.2) rest hwf_rest hp_rest x
        constructor
        · rintro ⟨y, hy, h1, h2⟩
          rcases List.mem_cons.mp hy with rfl | hy'
          · simp only at h1 h2
            rcases hcov.mpr (Or.inl h2) with h' | ⟨z, hz, hz1, hz2⟩
            · rcases cover_merge_arith start stop x r.1 r.2 (max stop r.2)
                (min start r.1) hno1 hno2 hr_wf (max_choice stop r.2)
                (min_choice start r.1) h1 h' with ⟨k1, k2⟩ | ⟨k1, k2⟩
              · left; exact ⟨r, List.mem_cons_self r rest, k1, k2⟩
              · right; exact ⟨k1, k2⟩
            · left; exact ⟨z, List.mem_cons_of_mem r hz, hz1, hz2⟩
          · left
            exact ⟨y, List.mem_cons_of_mem r ((mergeAbsorb_sublist _ rest).mem hy'),
              h1, h2⟩
        · rintro (⟨y, hy, h1, h2⟩ | ⟨h1, h2⟩)
          · rcases List.mem_cons.mp hy with rfl | hy'
            · refine ⟨(min start y.1, (mergeAbsorb (max stop y.2) rest).1),
                List.mem_cons_self _ _, le_trans (min_le_right start y.1) h1,
                lt_of_lt_of_le h2 (le_trans (le_max_right stop y.2)
                  (mergeAbsorb_le (max stop y.2) rest))⟩
            · rcases hcov.mp (Or.inr ⟨y, hy', h1, h2⟩) with h' | ⟨z, hz, hz1, hz2⟩
              · refine ⟨(min start r.1, (mergeAbsorb (max stop r.2) rest).1),
                  List.mem_cons_self _ _, ?_, h'⟩
                have hyr := hr_rest y hy'
                exact le_trans (min_le_right start r.1) (by omega)
              · exact ⟨z, List.mem_cons_of_mem _ hz, hz1, hz2⟩
          · refine ⟨(min start r.1, (mergeAbsorb (max stop r.2) rest).1),
              List.mem_cons_self _ _, le_trans (min_le_left start r.1) h1,
              lt_of_lt_of_le h2 (le_trans (le_max_left stop r.2) habs)⟩

/-- C2: for every RangeSet satisfying the invariant (sorted ascending,
pairwise disjoint, non-adjacent) and every `add(start, stop)` with
stop > start, the invariant holds again afterwards, and the covered set of
packet numbers is exactly the old covered set united with `[start, stop)`
(so touching or abutting ranges are merged rather than lost or split). -/
theorem c2_add_preserves_invariant (rs : RangeSet) (start stop : Int)
    (hwf : rs.WellFormed) (h : start < stop) :
    (rs.add start stop).WellFormed ∧
      ∀ x : Int, (rs.add start stop).covers x ↔
        (rs.covers x ∨ (start ≤ x ∧ x < stop)) := by
  obtain ⟨h1, h2⟩ := hwf
  exact ⟨addAux_wf start stop rs.ranges h1 h2 h,
    addAux_cover start stop rs.ranges h1 h2 h⟩

/-- Witness for C2: adding `[5, 10)` to `{[0,5), [10,15)}` (abutting on both
sides). -/
theorem c2_add_preserves_invariant_witness :
    (RangeSet.mk [(0, 5), (10, 15)]).WellFormed ∧ ((5 : Int) < 10) ∧
      ((RangeSet.mk [(0, 5), (10, 15)]).add 5 10).WellFormed ∧
      ∀ x : Int, ((RangeSet.mk [(0, 5), (10, 15)]).add 5 10).covers x ↔
        ((RangeSet.mk [(0, 5), (10, 15)]).covers x ∨ (5 ≤ x ∧ x < 10)) :=
  ⟨by constructor
      · intro r hr
        simp only [List.mem_cons, List.not_mem_nil, or_false] at hr
        rcases hr with rfl | rfl <;> norm_num
      · norm_num,
    by norm_num,
    (c2_add_preserves_invariant (RangeSet.mk [(0, 5), (10, 15)]) 5 10
      ⟨by intro r hr
          simp only [List.mem_cons, List.not_mem_nil, or_false] at hr
          rcases hr with rfl | rfl <;> norm_num,
        by norm_num⟩ (by norm_num)).1,
    (c2_add_preserves_invariant (RangeSet.mk [(0, 5), (10, 15)]) 5 10
      ⟨by intro r hr
          simp only [List.mem_cons, List.not_mem_nil, or_false] at hr
          rcases hr with rfl | rfl <;> norm_num,
        by norm_num⟩ (by norm_num)).2⟩

/-- Push a Python int (possibly out of the Nat range) as a variable-length
integer: a negative value fails inside `buffer.py`'s byte packing (Python
`ValueError`), a non-negative one behaves as `push_uint_var`. -/
def push_uint_var_int (v : Int) : Except Err (List Nat) :=
  if v < 0 then .error .valueError else push_uint_var v.toNat

/-- The descending loop of `push_ack_frame` (packet.py lines 362-368): for
each range below the carried `start`, emit `gap = start - r.stop - 1` and
`range_len = r.stop - r.start - 1`, then carry `r.start`. The list argument
holds the remaining ranges in descending order. -/
def pushAckRanges (start : Int) : List (Int × Int) → Except Err (List Nat)
  | [] => .ok []
  | r :: rest =>
    match push_uint_var_int (start - r.2 - 1) with
    | .error err => .error err
    | .ok g =>
      match push_uint_var_int (r.2 - r.1 - 1) with
      | .error err => .error err
      | .ok n =>
        match pushAckRanges r.1 rest with
        | .error err => .error err
        | .ok t => .ok (g ++ n ++ t)

/-- `push_ack_frame` (packet.py lines 355-368): emits
`largest = top.stop - 1`, `delay`, `range_count = len - 1`,
`first_range_len = top.stop - 1 - top.start`, then the earlier ranges in
descending order.  Indexing an empty RangeSet raises (Python `IndexError`). -/
def push_ack_frame (rs : RangeSet) (delay : Nat) : Except Err (List Nat) :=
  match rs.ranges.getLast? with
  | none => .error .indexError
  | some top =>
    match push_uint_var_int (top.2 - 1) with
    | .error err => .error err
    | .ok b1 =>
      match push_uint_var delay with
      | .error err => .error err
      | .ok b2 =>
        match push_uint_var (rs.ranges.length - 1) with
        | .error err => .error err
        | .ok b3 =>
          match push_uint_var_int (top.2 - 1 - top.1) with
          | .error err => .error err
          | .ok b4 =>
            match pushAckRanges top.1 rs.ranges.dropLast.reverse with
            | .error err => .error err
            | .ok t => .ok (b1 ++ b2 ++ b3 ++ b4 ++ t)

/-- The range loop of `pull_ack_frame` (packet.py lines 347-351): for each of
the announced extra ranges, read `gap` and `range_len`, move
`end -= gap + 2`, insert `[end - range_len, end + 1)` and move
`end -= range_len`. -/
def pullAckRanges : Nat → RangeSet → Int → List Nat → Except Err (RangeSet × Int × List Nat)
  | 0, rs, e, s => .ok (rs, e, s)
  | n + 1, rs, e, s =>
    match pull_uint_var s with
    | .error err => .error err
    | .ok (g, s1) =>
      let e1 := e - ((g : Int) + 2)
      match pull_uint_var s1 with
      | .error err => .error err
      | .ok (c, s2) =>
        pullAckRanges n (rs.add (e1 - (c : Int)) (e1 + 1)) (e1 - (c : Int)) s2

/-- `pull_ack_frame` (packet.py lines 339-352): reads `largest`, `delay`,
`range_count` and `first_range_len`, inserts the first range, then runs the
range loop. -/
def pull_ack_frame (s : List Nat) : Except Err ((RangeSet × Nat) × List Nat) :=
  match pull_uint_var s with
  | .error err => .error err
  | .ok (e0, s1) =>
    match pull_uint_var s1 with
    | .error err => .error err
    | .ok (delay, s2) =>
      match pull_uint_var s2 with
      | .error err => .error err
      | .ok (cnt, s3) =>
        match pull_uint_var s3 with
        | .error err => .error err
        | .ok (c0, s4) =>
          match pullAckRanges cnt
              ((RangeSet.mk []).add ((e0 : Int) - (c0 : Int)) ((e0 : Int) + 1))
              ((e0 : Int) - (c0 : Int)) s4 with
          | .error err => .error err
          | .ok (rs, _, rest) => .ok ((rs, delay), rest)

theorem addAux_below (s e : Int) (a : Int × Int) (t : List (Int × Int)) (h : e < a.1) :
    addAux s e (a :: t) = (s, e) :: a :: t := by
  simp [addAux, if_pos h]

theorem push_uint_var_int_spec (v : Int) (h0 : 0 ≤ v) (hM : v ≤ 2 ^ 62 - 1) :
    ∃ bs, push_uint_var_int v = .ok bs ∧
      ∀ r, pull_uint_var (bs ++ r) = .ok (v.toNat, r) := by
  have hN : v.toNat ≤ 0x3FFFFFFFFFFFFFFF := by omega
  obtain ⟨bs, h1, h2, _, _⟩ := pull_push_uint_var v.toNat hN
  exact ⟨bs, by simp [push_uint_var_int, not_lt.mpr h0, h1], h2⟩

theorem pullAckRanges_inverts (d : List (Int × Int)) :
    ∀ (start e0 : Int) (acc' : List (Int × Int)),
      (∀ r ∈ d, r.1 < r.2) → d.Pairwise (fun a b => b.2 < a.1) →
      (∀ r ∈ d, 0 ≤ r.1) → (∀ r ∈ d, r.2 < start) → start ≤ 2 ^ 62 →
      ∃ bytes, pushAckRanges start d = .ok bytes ∧
        ∀ rest, ∃ efin,
          pullAckRanges d.length (RangeSet.mk ((start, e0) :: acc')) start (bytes ++ rest)
            = .ok (RangeSet.mk (d.reverse ++ (start, e0) :: acc'), efin, rest) := by
  induction d with
  | nil =>
    intro start e0 acc' _ _ _ _ _
    exact ⟨[], rfl, fun rest => ⟨start, by simp [pullAckRanges]⟩⟩
  | cons r dt ih =>
    intro start e0 acc' hwf hp h0 hlt hs
    have hr_wf : r.1 < r.2 := hwf r (List.mem_cons_self r dt)
    have hr_0 : 0 ≤ r.1 := h0 r (List.mem_cons_self r dt)
    have hr_lt : r.2 < start := hlt r (List.mem_cons_self r dt)
    have hdt_lt : ∀ y ∈ dt, y.2 < r.1 := (List.pairwise_cons.mp hp).1
    obtain ⟨gb, hg1, hg2⟩ := push_uint_var_int_spec (start - r.2 - 1) (by omega) (by omega)
    obtain ⟨nb, hn1, hn2⟩ := push_uint_var_int_spec (r.2 - r.1 - 1) (by omega) (by omega)
    obtain ⟨tb, ht1, ht2⟩ := ih r.1 r.2 ((start, e0) :: acc')
      (fun y hy => hwf y (List.mem_cons_of_mem r hy))
      (List.Pairwise.of_cons hp)
      (fun y hy => h0 y (List.mem_cons_of_mem r hy))
      hdt_lt (by omega)
    refine ⟨gb ++ nb ++ tb, ?_, ?_⟩
    · simp only [pushAckRanges, hg1, hn1, ht1]
    · intro rest
      obtain ⟨efin, hpull⟩ := ht2 rest
      refine ⟨efin, ?_⟩
      have hgN : (((start - r.2 - 1).toNat : Int)) = start - r.2 - 1 :=
        Int.toNat_of_nonneg (by omega)
      have hnN : (((r.2 - r.1 - 1).toNat : Int)) = r.2 - r.1 - 1 :=
        Int.toNat_of_nonneg (by omega)
      simp only [List.length_cons, pullAckRanges, List.append_assoc]
      rw [hg2 (nb ++ (tb ++ rest))]
      simp only [hgN]
      rw [hn2 (tb ++ rest)]
      simp only [hnN]
      have hA : start - (start - r.2 - 1 + 2) - (r.2 - r.1 - 1) = r.1 := by ring
      have hB : start - (start - r.2 - 1 + 2) + 1 = r.2 := by ring
      rw [hA, hB]
      rw [show (RangeSet.mk ((start, e0) :: acc')).add r.1 r.2
          = RangeSet.mk ((r.1, r.2) :: (start, e0) :: acc') from by
        simp [RangeSet.add, addAux_below r.1 r.2 (start, e0) acc' hr_lt]]
      rw [hpull]
      simp [List.reverse_cons, List.append_assoc]

theorem wf_length_bound (B : Int) :
    ∀ (l : List (Int × Int)) (lb : Int),
      (∀ r ∈ l, r.1 < r.2) → l.Pairwise (fun a b => a.2 < b.1) →
      (∀ r ∈ l, lb ≤ r.1) → (∀ r ∈ l, r.2 ≤ B) → l ≠ [] →
      lb + 2 * ((l.length : Int) - 1) < B := by
  intro l
  induction l with
  | nil => intro lb _ _ _ _ hne; exact absurd rfl hne
  | cons r t ih =>
    intro lb hwf hp hlb hB _
    rcases t with _ | ⟨y, t'⟩
    · have h1 := hwf r (List.mem_cons_self r _)
      have h2 := hlb r (List.mem_cons_self r _)
      have h3 := hB r (List.mem_cons_self r _)
      simp only [List.length_cons, List.length_nil]
      push_cast
      omega
    · have hr2 : ∀ z ∈ y :: t', r.2 < z.1 := (List.pairwise_cons.mp hp).1
      have h1 := hwf r (List.mem_cons_self r _)
      have h2 := hlb r (List.mem_cons_self r _)
      have key := ih (lb + 2)
        (fun z hz => hwf z (List.mem_cons_of_mem r hz))
        (List.Pairwise.of_cons hp)
        (fun z hz => by have := hr2 z hz; omega)
        (fun z hz => hB z (List.mem_cons_of_mem r hz))
        (by simp)
      simp only [List.length_cons] at key ⊢
      push_cast at key ⊢
      omega

/-- C1 (amended): for every non-empty well-formed RangeSet whose ranges have
non-negative starts and stops at most 2^62, and every delay at most 2^62 - 1
(the varint encoder's range), `push_ack_frame` succeeds and `pull_ack_frame`
on the produced bytes returns exactly the same RangeSet and delay. -/
theorem c1_ack_frame_round_trip (rs : RangeSet) (delay : Nat)
    (hwf : rs.WellFormed) (hne : rs.ranges ≠ [])
    (h0 : ∀ r ∈ rs.ranges, 0 ≤ r.1) (hB : ∀ r ∈ rs.ranges, r.2 ≤ 2 ^ 62)
    (hdelay : delay ≤ 2 ^ 62 - 1) :
    ∃ bytes, push_ack_frame rs delay = .ok bytes ∧
      ∀ rest, pull_ack_frame (bytes ++ rest) = .ok ((rs, delay), rest) := by
  obtain ⟨hwf1, hwf2⟩ := hwf
  set l := rs.ranges with hl
  have htop : l.getLast hne ∈ l := List.getLast_mem hne
  set top := l.getLast hne with htopdef
  have hdecomp : l.dropLast ++ [top] = l := List.dropLast_append_getLast hne
  have hlast? : l.getLast? = some top := List.getLast?_eq_getLast l hne
  have htop_wf : top.1 < top.2 := hwf1 top htop
  have htop_0 : 0 ≤ top.1 := h0 top htop
  have htop_B : top.2 ≤ 2 ^ 62 := hB top htop
  -- pairwise decomposition
  have hpair_split := (List.pairwise_append.mp (hdecomp ▸ hwf2))
  have hdrop_pair : l.dropLast.Pairwise (fun a b => a.2 < b.1) := hpair_split.1
  have hdrop_lt : ∀ x ∈ l.dropLast, x.2 < top.1 := by
    intro x hx
    exact hpair_split.2.2 x hx top (List.mem_singleton_self top)
  have hdrop_mem : ∀ x ∈ l.dropLast, x ∈ l := fun x hx => (List.dropLast_sublist l).mem hx
  -- length bound
  have hlen := wf_length_bound (2 ^ 62) l 0 hwf1 hwf2 (fun r hr => h0 r hr) hB hne
  -- push components
  obtain ⟨b1, hb1, hb1p⟩ := push_uint_var_int_spec (top.2 - 1) (by omega) (by omega)
  obtain ⟨b2, hb2, hb2p, _, _⟩ := pull_push_uint_var delay (by omega)
  obtain ⟨b3, hb3, hb3p, _, _⟩ := pull_push_uint_var (l.length - 1) (by
    have hlpos : 0 < l.length := List.length_pos.mpr hne
    omega)
  obtain ⟨b4, hb4, hb4p⟩ := push_uint_var_int_spec (top.2 - 1 - top.1) (by omega) (by omega)
  have hd_wf : ∀ r ∈ l.dropLast.reverse, r.1 < r.2 := by
    intro r hr
    exact hwf1 r (hdrop_mem r (List.mem_reverse.mp hr))
  have hd_pair : l.dropLast.reverse.Pairwise (fun a b => b.2 < a.1) := by
    rw [List.pairwise_reverse]
    exact hdrop_pair
  have hd_0 : ∀ r ∈ l.dropLast.reverse, 0 ≤ r.1 := by
    intro r hr
    exact h0 r (hdrop_mem r (List.mem_reverse.mp hr))
  have hd_lt : ∀ r ∈ l.dropLast.reverse, r.2 < top.1 := by
    intro r hr
    exact hdrop_lt r (List.mem_reverse.mp hr)
  obtain ⟨tb, htb, htbp⟩ := pullAckRanges_inverts l.dropLast.reverse top.1 top.2 []
    hd_wf hd_pair hd_0 hd_lt (by omega)
  refine ⟨b1 ++ b2 ++ b3 ++ b4 ++ tb, ?_, ?_⟩
  · simp only [push_ack_frame, ← hl, hlast?, hb1, hb2, hb3, hb4, htb]
  · intro rest
    obtain ⟨efin, hpull⟩ := htbp rest
    have he0 : (((top.2 - 1).toNat : Int)) = top.2 - 1 := Int.toNat_of_nonneg (by omega)
    have hc0 : (((top.2 - 1 - top.1).toNat : Int)) = top.2 - 1 - top.1 :=
      Int.toNat_of_nonneg (by omega)
    simp only [pull_ack_frame, List.append_assoc, hb1p, hb2p, hb3p, hb4p, he0, hc0]
    have hA : top.2 - 1 - (top.2 - 1 - top.1) = top.1 := by ring
    have hB2 : top.2 - 1 + 1 = top.2 := by ring
    rw [hA, hB2]
    rw [show (RangeSet.mk []).add top.1 top.2 = RangeSet.mk [(top.1, top.2)] from by
      simp [RangeSet.add, addAux]]
    have hcnt : l.dropLast.reverse.length = l.length - 1 := by
      simp [List.length_reverse, List.length_dropLast]
    rw [← hcnt, hpull]
    simp only [List.reverse_reverse]
    rw [show l.dropLast ++ [(top.1, top.2)] = l from by
      rw [show ((top.1, top.2) : Int × Int) = top from rfl]
      exact hdecomp]

/-- Counterexample to C1 as stated: the claim quantifies over every delay,
but at delay = 2^62 the varint encoder raises, so serialization produces no
bytes at all and the round trip fails. -/
theorem c1_ack_frame_round_trip_counterexample :
    (RangeSet.mk [(0, 1)]).WellFormed ∧ (RangeSet.mk [(0, 1)]).ranges ≠ [] ∧
      (∀ r ∈ (RangeSet.mk [(0, 1)]).ranges, (0 : Int) ≤ r.1) ∧
      push_ack_frame (RangeSet.mk [(0, 1)]) (2 ^ 62) = .error .valueTooLarge := by
  refine ⟨⟨?_, ?_⟩, ?_, ?_, ?_⟩
  · intro r hr
    simp only [List.mem_singleton] at hr
    subst hr; norm_num
  · norm_num
  · simp
  · intro r hr
    simp only [List.mem_singleton] at hr
    subst hr; norm_num
  · rfl

/-- Witness for C1 at the spec's example: RangeSet {[5,8), [10,11), [20,25)}
with delay 42. -/
theorem c1_ack_frame_round_trip_witness :
    (RangeSet.mk [(5, 8), (10, 11), (20, 25)]).WellFormed ∧
      (RangeSet.mk [(5, 8), (10, 11), (20, 25)]).ranges ≠ [] ∧
      (∀ r ∈ (RangeSet.mk [(5, 8), (10, 11), (20, 25)]).ranges, (0 : Int) ≤ r.1) ∧
      (∀ r ∈ (RangeSet.mk [(5, 8), (10, 11), (20, 25)]).ranges, r.2 ≤ 2 ^ 62) ∧
      42 ≤ 2 ^ 62 - 1 ∧
      ∃ bytes, push_ack_frame (RangeSet.mk [(5, 8), (10, 11), (20, 25)]) 42 = .ok bytes ∧
        ∀ rest, pull_ack_frame (bytes ++ rest)
          = .ok ((RangeSet.mk [(5, 8), (10, 11), (20, 25)], 42), rest) := by
  have hwf : (RangeSet.mk [(5, 8), (10, 11), (20, 25)]).WellFormed := by
    constructor
    · intro r hr
      simp only [List.mem_cons, List.not_mem_nil, or_false] at hr
      rcases hr with rfl | rfl | rfl <;> norm_num
    · norm_num
  have h0 : ∀ r ∈ (RangeSet.mk [(5, 8), (10, 11), (20, 25)]).ranges, (0 : Int) ≤ r.1 := by
    intro r hr
    simp only [List.mem_cons, List.not_mem_nil, or_false] at hr
    rcases hr with rfl | rfl | rfl <;> norm_num
  have hB : ∀ r ∈ (RangeSet.mk [(5, 8), (10, 11), (20, 25)]).ranges, r.2 ≤ 2 ^ 62 := by
    intro r hr
    simp only [List.mem_cons, List.not_mem_nil, or_false] at hr
    rcases hr with rfl | rfl | rfl <;> norm_num
  exact ⟨hwf, by simp, h0, hB, by norm_num,
    c1_ack_frame_round_trip (RangeSet.mk [(5, 8), (10, 11), (20, 25)]) 42 hwf
      (by simp) h0 hB (by norm_num)⟩

/-- `QuicHeader` (packet.py lines 68-80).  `version` is absent for parsed
short-header packets; `packet_type` is absent only for version-negotiation
packets. -/
structure QuicHeader where
  version : Option Nat
  packet_type : Option Nat
  destination_cid : List Nat
  source_cid : List Nat
  original_destination_cid : List Nat := []
  token : List Nat := []
  rest_length : Nat := 0
deriving DecidableEq, Repr

/-- `decode_cid_length` (packet.py lines 83-84): nibble 0 means length 0,
otherwise length = nibble + 3. -/
def decode_cid_length (length : Nat) : Nat :=
  if length ≠ 0 then length + 3 else 0

/-- `encode_cid_length` (packet.py lines 87-88). -/
def encode_cid_length (length : Nat) : Nat :=
  if length ≠ 0 then length - 3 else 0

/-- `is_long_header` (packet.py lines 95-96): bit 0x80 of the first byte. -/
def is_long_header (first_byte : Nat) : Bool :=
  first_byte &&& 0x80 ≠ 0

/-- `pull_quic_header` (packet.py lines 124-187).  `host_cid_length` is the
caller-supplied destination CID length for short-header packets (passing
`none` there fails, as Python's `None` length would).  The fixed-bit
`ValueError` raises are the spec's `ProtocolViolation`. -/
def pull_quic_header (host_cid_length : Option Nat) (s : List Nat) :
    Except Err (QuicHeader × List Nat) :=
  match pull_uint8 s with
  | .error err => .error err
  | .ok (first_byte, s1) =>
    if is_long_header first_byte then
      match pull_uintN 4 s1 with
      | .error err => .error err
      | .ok (version, s2) =>
        match pull_uint8 s2 with
        | .error err => .error err
        | .ok (cid_lengths, s3) =>
          match pull_bytes (decode_cid_length (cid_lengths / 16)) s3 with
          | .error err => .error err
          | .ok (destination_cid, s4) =>
            match pull_bytes (decode_cid_length (cid_lengths % 16)) s4 with
            | .error err => .error err
            | .ok (source_cid, s5) =>
              if version = 0 then
                .ok ({ version := some version, packet_type := none,
                       destination_cid, source_cid,
                       original_destination_cid := [], token := [],
                       rest_length := s5.length }, s5)
              else if first_byte &&& 0x40 = 0 then .error .protocolViolation
              else
                let packet_type := first_byte &&& 0xF0
                if packet_type = 0xC0 then
                  match pull_uint_var s5 with
                  | .error err => .error err
                  | .ok (token_length, s6) =>
                    match pull_bytes token_length s6 with
                    | .error err => .error err
                    | .ok (token, s7) =>
                      match pull_uint_var s7 with
                      | .error err => .error err
                      | .ok (rest_length, s8) =>
                        .ok ({ version := some version,
                               packet_type := some packet_type,
                               destination_cid, source_cid,
                               original_destination_cid := [], token,
                               rest_length }, s8)
                else if packet_type = 0xF0 then
                  match pull_bytes (decode_cid_length (first_byte &&& 0xF)) s5 with
                  | .error err => .error err
                  | .ok (original_destination_cid, s6) =>
                    .ok ({ version := some version,
                           packet_type := some packet_type,
                           destination_cid, source_cid,
                           original_destination_cid, token := s6,
                           rest_length := 0 }, [])
                else
                  match pull_uint_var s5 with
                  | .error err => .error err
                  | .ok (rest_length, s6) =>
                    .ok ({ version := some version,
                           packet_type := some packet_type,
                           destination_cid, source_cid,
                           original_destination_cid := [], token := [],
                           rest_length }, s6)
    else
      if first_byte &&& 0x40 = 0 then .error .protocolViolation
      else
        match host_cid_length with
        | none => .error .valueError
        | some n =>
          match pull_bytes n s1 with
          | .error err => .error err
          | .ok (destination_cid, s2) =>
            .ok ({ version := none, packet_type := some (first_byte &&& 0xF0),
                   destination_cid, source_cid := [],
                   original_destination_cid := [], token := [],
                   rest_length := s2.length }, s2)

/-- `push_quic_header` (packet.py lines 189-203): packet-type byte, 4-byte
version, CID-length nibble byte, both CIDs, the token (with varint length,
INITIAL only), then the 2-byte length and 2-byte packet-number placeholders
written as zeros.  A header without `packet_type` or `version` cannot be
serialized (Python would fail packing `None`). -/
def push_quic_header (header : QuicHeader) : Except Err (List Nat) :=
  match header.packet_type, header.version with
  | some pt, some v =>
    match push_uintN 1 pt with
    | .error err => .error err
    | .ok b1 =>
      match push_uintN 4 v with
      | .error err => .error err
      | .ok b2 =>
        match push_uintN 1 ((encode_cid_length header.destination_cid.length <<< 4) |||
            encode_cid_length header.source_cid.length) with
        | .error err => .error err
        | .ok b3 =>
          match (if pt &&& 0xF0 = 0xC0 then
              match push_uint_var header.token.length with
              | .error err => .error err
              | .ok tl => .ok (tl ++ header.token)
            else .ok [] : Except Err (List Nat)) with
          | .error err => .error err
          | .ok tok =>
            .ok (b1 ++ b2 ++ b3 ++ header.destination_cid ++ header.source_cid ++
              tok ++ encBe 2 0 ++ encBe 2 0)
  | _, _ => .error .valueError

theorem pull_bytes_zero (s : List Nat) : pull_bytes 0 s = .ok ([], s) := by
  simp [pull_bytes]

/-- C4: for every QuicHeader describing a long-header Initial packet (type
byte 0xC0, non-negotiation version below 2^32, no original destination CID)
with an 8-byte destination CID, a 0-byte source CID and a 4-byte token,
`push_quic_header` then `pull_quic_header` returns the same header in every
field except the protection placeholders: the two 2-byte zero placeholders
are written, the parsed `rest_length` is 0 and three placeholder bytes remain
unread. -/
theorem c4_header_round_trip (h : QuicHeader) (v : Nat) (hcl : Option Nat)
    (hv : h.version = some v) (h0v : 0 < v) (hv32 : v < 2 ^ 32)
    (hpt : h.packet_type = some 0xC0)
    (hd : h.destination_cid.length = 8) (hs : h.source_cid = [])
    (ht : h.token.length = 4) (ho : h.original_destination_cid = []) :
    ∃ bytes, push_quic_header h = .ok bytes ∧
      pull_quic_header hcl bytes = .ok ({ h with rest_length := 0 }, [0, 0, 0]) := by
  refine ⟨[0xC0] ++ encBe 4 v ++ [80] ++ h.destination_cid ++ [] ++
    ([4] ++ h.token) ++ [0, 0] ++ [0, 0], ?_, ?_⟩
  · simp only [push_quic_header, hpt, hv, hd, hs, ht]
    rw [show push_uintN 1 0xC0 = .ok [0xC0] from by norm_num [push_uintN, encBe_eq_one]]
    rw [show push_uintN 4 v = .ok (encBe 4 v) from by
      unfold push_uintN
      rw [if_pos (show v < 256 ^ 4 by norm_num at hv32 ⊢; omega)]]
    rw [show push_uintN 1 ((encode_cid_length 8 <<< 4) |||
        encode_cid_length ([] : List Nat).length) = .ok [80] from by
      norm_num [push_uintN, encode_cid_length, encBe_eq_one, Nat.shiftLeft_eq]]
    rw [show push_uint_var 4 = .ok [4] from by
      norm_num [push_uint_var, orFirst, encBe_eq_one]]
    rfl
  · have e1 : ∀ X : List Nat, pull_uint8 (0xC0 :: X) = .ok (0xC0, X) := fun _ => rfl
    have e2 : ∀ X, pull_uintN 4 (encBe 4 v ++ X) = .ok (v, X) :=
      fun X => pull_uintN_encBe 4 v (by norm_num at hv32 ⊢; omega) X
    have e3 : ∀ X : List Nat, pull_uint8 (80 :: X) = .ok (80, X) := fun _ => rfl
    have e4 : ∀ X, pull_bytes 8 (h.destination_cid ++ X) = .ok (h.destination_cid, X) :=
      fun X => pull_bytes_append_of_eq 8 _ X hd
    have e5 : ∀ X, pull_uint_var (4 :: X) = .ok (4, X) := fun X => by
      have hc := pull_uint_var_class1 4 (by norm_num) X
      simpa [orFirst, encBe_eq_one] using hc
    have e6 : ∀ X, pull_bytes 4 (h.token ++ X) = .ok (h.token, X) :=
      fun X => pull_bytes_append_of_eq 4 _ X ht
    have e7 : ∀ X, pull_uint_var (0 :: X) = .ok (0, X) := fun X => by
      have hc := pull_uint_var_class1 0 (by norm_num) X
      simpa [orFirst, encBe_eq_one] using hc
    simp only [List.append_assoc, List.cons_append, List.nil_append,
      List.singleton_append]
    have hv0 : (v = 0) = False := eq_false (by omega)
    have hb1 : (192 &&& 128 : Nat) = 128 := rfl
    have hb2 : (192 &&& 64 : Nat) = 64 := rfl
    have hb3 : (192 &&& 240 : Nat) = 192 := rfl
    norm_num [pull_quic_header, is_long_header, decode_cid_length, hv0,
      hb1, hb2, hb3, e1, e2, e3, e4, e5, e6, e7, pull_bytes_zero, hv, hpt, hs, ho]

/-- Witness for C4 at a concrete Initial header. -/
theorem c4_header_round_trip_witness :
    (QuicHeader.mk (some 0xFF000012) (some 0xC0) [1, 2, 3, 4, 5, 6, 7, 8] [] [] [9, 9, 9, 9]
        77).version = some 0xFF000012 ∧
      0 < 0xFF000012 ∧ 0xFF000012 < 2 ^ 32 ∧
      ∃ bytes,
        push_quic_header (QuicHeader.mk (some 0xFF000012) (some 0xC0)
          [1, 2, 3, 4, 5, 6, 7, 8] [] [] [9, 9, 9, 9] 77) = .ok bytes ∧
        pull_quic_header (some 5) bytes
          = .ok ({ QuicHeader.mk (some 0xFF000012) (some 0xC0)
              [1, 2, 3, 4, 5, 6, 7, 8] [] [] [9, 9, 9, 9] 77 with rest_length := 0 },
            [0, 0, 0]) :=
  ⟨rfl, by norm_num, by norm_num,
    c4_header_round_trip
      (QuicHeader.mk (some 0xFF000012) (some 0xC0) [1, 2, 3, 4, 5, 6, 7, 8] [] []
        [9, 9, 9, 9] 77)
      0xFF000012 (some 5) rfl (by norm_num) (by norm_num) rfl rfl rfl rfl rfl⟩

/-- C7: `pull_quic_header` fails with ProtocolViolation whenever the fixed
bit 0x40 of the first byte is unset, both for short-header packets and for
long-header packets whose version field is non-zero; a long-header packet
with version 0 (version negotiation) is exempt from the fixed-bit check and
parses with `packet_type` absent. -/
theorem c7_fixed_bit :
    (∀ (b : Nat) (rest : List Nat) (hcl : Option Nat),
      b &&& 0x80 = 0 → b &&& 0x40 = 0 →
      pull_quic_header hcl (b :: rest) = .error .protocolViolation) ∧
    (∀ (b v cl : Nat) (dcid scid tail : List Nat) (hcl : Option Nat),
      b &&& 0x80 ≠ 0 → b &&& 0x40 = 0 → v < 2 ^ 32 → v ≠ 0 →
      dcid.length = decode_cid_length (cl / 16) →
      scid.length = decode_cid_length (cl % 16) →
      pull_quic_header hcl (b :: (encBe 4 v ++ cl :: (dcid ++ scid ++ tail)))
        = .error .protocolViolation) ∧
    (∀ (b cl : Nat) (dcid scid tail : List Nat) (hcl : Option Nat),
      b &&& 0x80 ≠ 0 →
      dcid.length = decode_cid_length (cl / 16) →
      scid.length = decode_cid_length (cl % 16) →
      pull_quic_header hcl (b :: (encBe 4 0 ++ cl :: (dcid ++ scid ++ tail)))
        = .ok ({ version := some 0, packet_type := none, destination_cid := dcid,
                 source_cid := scid, original_destination_cid := [], token := [],
                 rest_length := tail.length }, tail)) := by
  have e1 : ∀ (x : Nat) (X : List Nat), pull_uint8 (x :: X) = .ok (x, X) := fun _ _ => rfl
  refine ⟨?_, ?_, ?_⟩
  · intro b rest hcl h128 h40
    have hlh : is_long_header b = false := by
      simp [is_long_header, h128]
    simp only [pull_quic_header, e1, hlh, Bool.false_eq_true, if_false, if_pos h40]
  · intro b v cl dcid scid tail hcl h128 h40 hv32 hv0 hd hsc
    have hlh : is_long_header b = true := by
      simp [is_long_header, h128]
    have e2 : ∀ X, pull_uintN 4 (encBe 4 v ++ X) = .ok (v, X) :=
      fun X => pull_uintN_encBe 4 v (by norm_num at hv32 ⊢; omega) X
    have e4 : ∀ X, pull_bytes (decode_cid_length (cl / 16)) (dcid ++ X)
        = .ok (dcid, X) := fun X => pull_bytes_append_of_eq _ dcid X hd
    have e5 : ∀ X, pull_bytes (decode_cid_length (cl % 16)) (scid ++ X)
        = .ok (scid, X) := fun X => pull_bytes_append_of_eq _ scid X hsc
    have hveq : (v = 0) = False := eq_false hv0
    simp only [List.append_assoc]
    simp only [pull_quic_header, e1, hlh, if_true, e2, e4, e5, hveq, if_false,
      if_pos h40]
  · intro b cl dcid scid tail hcl h128 hd hsc
    have hlh : is_long_header b = true := by
      simp [is_long_header, h128]
    have e2 : ∀ X, pull_uintN 4 (encBe 4 0 ++ X) = .ok (0, X) :=
      fun X => pull_uintN_encBe 4 0 (by norm_num) X
    have e4 : ∀ X, pull_bytes (decode_cid_length (cl / 16)) (dcid ++ X)
        = .ok (dcid, X) := fun X => pull_bytes_append_of_eq _ dcid X hd
    have e5 : ∀ X, pull_bytes (decode_cid_length (cl % 16)) (scid ++ X)
        = .ok (scid, X) := fun X => pull_bytes_append_of_eq _ scid X hsc
    simp only [List.append_assoc]
    simp only [pull_quic_header, e1, hlh, if_true, e2, e4, e5, if_pos rfl]

/-- Witness for C7: first byte 0x00 for the short-header part, first byte
0x80 with nibble byte 0x50 (8-byte destination CID) for the long-header
parts, version 5 for the non-negotiation part. -/
theorem c7_fixed_bit_witness :
    ((0x00 : Nat) &&& 0x80 = 0 ∧ (0x00 : Nat) &&& 0x40 = 0 ∧
      pull_quic_header (some 3) (0x00 :: [1, 2, 3]) = .error .protocolViolation) ∧
    ((0x80 : Nat) &&& 0x80 ≠ 0 ∧ (0x80 : Nat) &&& 0x40 = 0 ∧ (5 : Nat) < 2 ^ 32 ∧
      (5 : Nat) ≠ 0 ∧
      ([1, 2, 3, 4, 5, 6, 7, 8] : List Nat).length = decode_cid_length (0x50 / 16) ∧
      ([] : List Nat).length = decode_cid_length (0x50 % 16) ∧
      pull_quic_header none
          (0x80 :: (encBe 4 5 ++ 0x50 :: ([1, 2, 3, 4, 5, 6, 7, 8] ++ [] ++ [9, 9])))
        = .error .protocolViolation) ∧
    pull_quic_header none
        (0x80 :: (encBe 4 0 ++ 0x50 :: ([1, 2, 3, 4, 5, 6, 7, 8] ++ [] ++ [9, 9])))
      = .ok ({ version := some 0, packet_type := none,
               destination_cid := [1, 2, 3, 4, 5, 6, 7, 8], source_cid := [],
               original_destination_cid := [], token := [],
               rest_length := ([9, 9] : List Nat).length }, [9, 9]) :=
  ⟨⟨rfl, rfl, c7_fixed_bit.1 0x00 [1, 2, 3] (some 3) rfl rfl⟩,
    ⟨by norm_num, rfl, by norm_num, by norm_num, by norm_num [decode_cid_length],
      by norm_num [decode_cid_length],
      c7_fixed_bit.2.1 0x80 5 0x50 [1, 2, 3, 4, 5, 6, 7, 8] [] [9, 9] none
        (by norm_num) rfl (by norm_num) (by norm_num)
        (by norm_num [decode_cid_length]) (by norm_num [decode_cid_length])⟩,
    c7_fixed_bit.2.2 0x80 0x50 [1, 2, 3, 4, 5, 6, 7, 8] [] [9, 9] none
      (by norm_num) (by norm_num [decode_cid_length])
      (by norm_num [decode_cid_length])⟩

/-- `QuicTransportParameters` (packet.py lines 229-248): a record of optional
fields; `disable_migration` defaults to `False` (not absent).  The
`initial_version`, `negotiated_version` and `supported_versions` fields are
never touched by this codec and keep their defaults. -/
structure QuicTransportParameters where
  initial_version : Option Nat := none
  negotiated_version : Option Nat := none
  supported_versions : List Nat := []
  original_connection_id : Option (List Nat) := none
  idle_timeout : Option Nat := none
  stateless_reset_token : Option (List Nat) := none
  max_packet_size : Option Nat := none
  initial_max_data : Option Nat := none
  initial_max_stream_data_bidi_local : Option Nat := none
  initial_max_stream_data_bidi_remote : Option Nat := none
  initial_max_stream_data_uni : Option Nat := none
  initial_max_streams_bidi : Option Nat := none
  initial_max_streams_uni : Option Nat := none
  ack_delay_exponent : Option Nat := none
  max_ack_delay : Option Nat := none
  disable_migration : Option Bool := some false
  preferred_address : Option (List Nat) := none
deriving DecidableEq, Repr

/-- The value kind of each entry of the `PARAMS` table (packet.py
lines 251-266), positionally for ids 0..13. -/
inductive ParamKind where
  | int
  | bytes
  | bool
deriving DecidableEq, Repr

/-- The `PARAMS` table kinds, in table order. -/
def PARAMS : List ParamKind :=
  [.bytes, .int, .bytes, .int, .int, .int, .int, .int, .int, .int, .int, .int,
    .bool, .bytes]

/-- The `setattr(params, param_name, ...)` of an integer-kind parameter,
dispatched by the table position of `param_name`. -/
def setParamInt (i v : Nat) (p : QuicTransportParameters) : QuicTransportParameters :=
  match i with
  | 1 => { p with idle_timeout := some v }
  | 3 => { p with max_packet_size := some v }
  | 4 => { p with initial_max_data := some v }
  | 5 => { p with initial_max_stream_data_bidi_local := some v }
  | 6 => { p with initial_max_stream_data_bidi_remote := some v }
  | 7 => { p with initial_max_stream_data_uni := some v }
  | 8 => { p with initial_max_streams_bidi := some v }
  | 9 => { p with initial_max_streams_uni := some v }
  | 10 => { p with ack_delay_exponent := some v }
  | 11 => { p with max_ack_delay := some v }
  | _ => p

/-- The `setattr` of a bytes-kind parameter. -/
def setParamBytes (i : Nat) (v : List Nat) (p : QuicTransportParameters) :
    QuicTransportParameters :=
  match i with
  | 0 => { p with original_connection_id := some v }
  | 2 => { p with stateless_reset_token := some v }
  | 13 => { p with preferred_address := some v }
  | _ => p

/-- The `setattr(params, param_name, True)` of the boolean-kind parameter. -/
def setParamBool (i : Nat) (p : QuicTransportParameters) : QuicTransportParameters :=
  match i with
  | 12 => { p with disable_migration := some true }
  | _ => p

/-- The value dispatch of one TLV entry (packet.py lines 278-289): a known
parameter id decodes per its table kind (integer as varint, bytes as raw
`param_len` bytes, boolean by presence alone), an unknown id skips
`param_len` bytes unread. -/
def pullTPValue (param_id param_len : Nat) (params : QuicTransportParameters)
    (s : List Nat) : Except Err (QuicTransportParameters × List Nat) :=
  if param_id < PARAMS.length then
    match PARAMS.getD param_id .bytes with
    | .int =>
      match pull_uint_var s with
      | .error err => .error err
      | .ok (v, s1) => .ok (setParamInt param_id v params, s1)
    | .bytes =>
      match pull_bytes param_len s with
      | .error err => .error err
      | .ok (v, s1) => .ok (setParamBytes param_id v params, s1)
    | .bool => .ok (setParamBool param_id params, s)
  else
    match pull_bytes param_len s with
    | .error err => .error err
    | .ok (_, s1) => .ok (params, s1)

/-- One TLV entry of `pull_quic_transport_parameters` (packet.py
lines 275-290): `(id: uint16, len: uint16, value)`, followed by the
cursor-position integrity check `assert buf.tell() == param_start +
param_len`, which the spec assigns to `FrameEncodingError`. -/
def pullTPEntry (params : QuicTransportParameters) (s : List Nat) :
    Except Err (QuicTransportParameters × List Nat) :=
  match pull_uintN 2 s with
  | .error err => .error err
  | .ok (param_id, s1) =>
    match pull_uintN 2 s1 with
    | .error err => .error err
    | .ok (param_len, s2) =>
      match pullTPValue param_id param_len params s2 with
      | .error err => .error err
      | .ok (params1, s3) =>
        if s2.length - s3.length = param_len then .ok (params1, s3)
        else .error .frameEncodingError

/-- The `while buf.tell() < end` loop of `pull_quic_transport_parameters`,
with `rem = end - tell` and a fuel argument (each iteration consumes at
least four bytes, so fuel equal to the remaining byte count never runs
out). -/
def pullTPLoop : Nat → QuicTransportParameters → Nat → List Nat →
    Except Err (QuicTransportParameters × List Nat)
  | _, params, 0, s => .ok (params, s)
  | 0, _, _ + 1, _ => .error .bufferReadError
  | fuel + 1, params, rem + 1, s =>
    match pullTPEntry params s with
    | .error err => .error err
    | .ok (params1, s1) =>
      pullTPLoop fuel params1 (rem + 1 - (s.length - s1.length)) s1

/-- `pull_quic_transport_parameters` (packet.py lines 269-292).  The outer
2-byte length prefix is the contract of `tls.py`'s `pull_block(buf, 2)`,
modelled from the spec (section 4.3). -/
def pull_quic_transport_parameters (s : List Nat) :
    Except Err (QuicTransportParameters × List Nat) :=
  match pull_uintN 2 s with
  | .error err => .error err
  | .ok (length, s1) => pullTPLoop s1.length {} length s1

/-- Modelled from the spec: `tls.py`'s `push_block(buf, 2)` wraps the bytes
written by its body in a 2-byte big-endian length prefix (backpatched). -/
def pushBlock2 (body : List Nat) : Except Err (List Nat) :=
  if body.length < 256 ^ 2 then .ok (encBe 2 body.length ++ body)
  else .error .valueError

/-- One integer-kind entry of `push_quic_transport_parameters`: emitted only
when present. -/
def pushTPEntryInt (pid : Nat) (v : Option Nat) : Except Err (List Nat) :=
  match v with
  | none => .ok []
  | some x =>
    match push_uint_var x with
    | .error err => .error err
    | .ok vb =>
      match pushBlock2 vb with
      | .error err => .error err
      | .ok blk => .ok (encBe 2 pid ++ blk)

/-- One bytes-kind entry of `push_quic_transport_parameters`. -/
def pushTPEntryBytes (pid : Nat) (v : Option (List Nat)) : Except Err (List Nat) :=
  match v with
  | none => .ok []
  | some x =>
    match pushBlock2 x with
    | .error err => .error err
    | .ok blk => .ok (encBe 2 pid ++ blk)

/-- The boolean-kind entry of `push_quic_transport_parameters`: emitted (with
an empty value block) only when the value is True; `None` and `False` are
both skipped. -/
def pushTPEntryBool (pid : Nat) (v : Option Bool) : Except Err (List Nat) :=
  match v with
  | some true => .ok (encBe 2 pid ++ encBe 2 0)
  | _ => .ok []

/-- `push_quic_transport_parameters` (packet.py lines 295-307): each of the
14 known parameters in table order, wrapped in the outer 2-byte block. -/
def push_quic_transport_parameters (p : QuicTransportParameters) :
    Except Err (List Nat) := do
  let e0 ← pushTPEntryBytes 0 p.original_connection_id
  let e1 ← pushTPEntryInt 1 p.idle_timeout
  let e2 ← pushTPEntryBytes 2 p.stateless_reset_token
  let e3 ← pushTPEntryInt 3 p.max_packet_size
  let e4 ← pushTPEntryInt 4 p.initial_max_data
  let e5 ← pushTPEntryInt 5 p.initial_max_stream_data_bidi_local
  let e6 ← pushTPEntryInt 6 p.initial_max_stream_data_bidi_remote
  let e7 ← pushTPEntryInt 7 p.initial_max_stream_data_uni
  let e8 ← pushTPEntryInt 8 p.initial_max_streams_bidi
  let e9 ← pushTPEntryInt 9 p.initial_max_streams_uni
  let e10 ← pushTPEntryInt 10 p.ack_delay_exponent
  let e11 ← pushTPEntryInt 11 p.max_ack_delay
  let e12 ← pushTPEntryBool 12 p.disable_migration
  let e13 ← pushTPEntryBytes 13 p.preferred_address
  pushBlock2 (e0 ++ e1 ++ e2 ++ e3 ++ e4 ++ e5 ++ e6 ++ e7 ++ e8 ++ e9 ++
    e10 ++ e11 ++ e12 ++ e13)

theorem pullTPLoop_zero (fuel : Nat) (params : QuicTransportParameters) (s : List Nat) :
    pullTPLoop fuel params 0 s = .ok (params, s) := by
  cases fuel <;> rfl

theorem pullTPLoop_step (fuel rem : Nat) (params params1 : QuicTransportParameters)
    (s s1 : List Nat) (hfuel : fuel ≠ 0) (hrem : rem ≠ 0)
    (hentry : pullTPEntry params s = .ok (params1, s1)) :
    pullTPLoop fuel params rem s
      = pullTPLoop (fuel - 1) params1 (rem - (s.length - s1.length)) s1 := by
  match fuel, rem with
  | f + 1, r + 1 => simp [pullTPLoop, hentry]

theorem pullTPEntry_unknown (params : QuicTransportParameters) (pid L : Nat)
    (V R : List Nat) (hpid14 : 14 ≤ pid) (hpid : pid < 2 ^ 16) (hL : L < 2 ^ 16)
    (hV : V.length = L) :
    pullTPEntry params (encBe 2 pid ++ encBe 2 L ++ (V ++ R)) = .ok (params, R) := by
  have hlen : ¬ (pid < PARAMS.length) := by simp [PARAMS]; omega
  simp only [pullTPEntry, List.append_assoc,
    pull_uintN_encBe 2 pid (by norm_num; omega), pull_uintN_encBe 2 L (by norm_num; omega),
    pullTPValue, hlen, if_false, pull_bytes_append_of_eq L V R hV]
  rw [if_pos (by simp [hV])]

theorem pullTPEntry_imd (params : QuicTransportParameters) (R : List Nat) :
    pullTPEntry params (encBe 2 4 ++ encBe 2 2 ++ ([64, 100] ++ R))
      = .ok (setParamInt 4 100 params, R) := by
  have h100 : ∀ X, pull_uint_var ((64 : Nat) :: 100 :: X) = .ok (100, X) := by
    intro X
    have hc := pull_uint_var_class2 100 (by norm_num) X
    simpa [orFirst, encBe_eq_two] using hc
  simp only [pullTPEntry, List.append_assoc,
    pull_uintN_encBe 2 4 (by norm_num), pull_uintN_encBe 2 2 (by norm_num),
    pullTPValue, List.cons_append, h100]
  rw [show PARAMS.getD 4 ParamKind.bytes = ParamKind.int from rfl]
  simp only [List.nil_append]
  rw [if_pos (show 4 < PARAMS.length by norm_num [PARAMS])]
  show (if (64 :: 100 :: R).length - R.length = 2 then
      Except.ok (setParamInt 4 100 params, R)
    else Except.error Err.frameEncodingError)
    = Except.ok (setParamInt 4 100 params, R)
  rw [if_pos (show (64 :: 100 :: R).length - R.length = 2 by
    simp only [List.length_cons]; omega)]

/-- C8: encoding a QuicTransportParameters record in which only
`initial_max_data` is set (to 100) and then decoding yields a record with
`initial_max_data = 100` and every other field at its default, with the whole
input consumed; and a TLV entry with any parameter id outside the known
table (id ≥ 14) and any declared-length-matching value bytes is skipped
exactly, leaving the following known entry to parse correctly. -/
theorem c8_transport_params :
    (∃ bs, push_quic_transport_parameters { initial_max_data := some 100 } = .ok bs ∧
      pull_quic_transport_parameters bs
        = .ok ({ initial_max_data := some 100 }, [])) ∧
    (∀ (pid : Nat) (V : List Nat), 14 ≤ pid → pid < 2 ^ 16 → V.length ≤ 100 →
      pull_quic_transport_parameters (encBe 2 (10 + V.length) ++
          (encBe 2 pid ++ encBe 2 V.length ++ (V ++ [0, 4, 0, 2, 64, 100])))
        = .ok ({ initial_max_data := some 100 }, [])) := by
  constructor
  · exact ⟨[0, 6, 0, 4, 0, 2, 64, 100], rfl, rfl⟩
  · intro pid V h14 hpid hV
    have houter := pull_uintN_encBe 2 (10 + V.length) (by norm_num; omega)
      (encBe 2 pid ++ encBe 2 V.length ++ (V ++ [0, 4, 0, 2, 64, 100]))
    simp only [pull_quic_transport_parameters, houter]
    have hentry1 := pullTPEntry_unknown {} pid V.length V [0, 4, 0, 2, 64, 100]
      h14 hpid (by omega) rfl
    have hlen : (encBe 2 pid ++ encBe 2 V.length ++ (V ++ [0, 4, 0, 2, 64, 100])).length
        = V.length + 10 := by
      simp [encBe_length]
      omega
    rw [pullTPLoop_step _ _ _ _ _ _ (by rw [hlen]; omega) (by omega) hentry1]
    rw [hlen]
    rw [show 10 + V.length - (V.length + 10 - ([0, 4, 0, 2, 64, 100] : List Nat).length)
        = 6 from by simp; omega]
    rw [show ([0, 4, 0, 2, 64, 100] : List Nat)
        = encBe 2 4 ++ encBe 2 2 ++ ([64, 100] ++ []) from rfl]
    rw [pullTPLoop_step _ _ _ _ _ _ (by omega) (by omega) (pullTPEntry_imd {} [])]
    have hz : (6 : Nat) -
        ((encBe 2 4 ++ encBe 2 2 ++ ([64, 100] ++ [])).length - ([] : List Nat).length)
        = 0 := by
      norm_num [encBe_length]
    rw [hz, pullTPLoop_zero]
    rfl

/-- C5: in `pull_quic_transport_parameters`, whenever after processing a TLV
entry the cursor sits elsewhere than `param_start + param_len`, the parse
fails with FrameEncodingError (the integrity `assert` of packet.py line 290,
per the spec's error taxonomy): for any integer-kind parameter whose varint
value consumes a number of bytes different from the declared length, and for
the boolean-kind parameter (id 12) with any non-zero declared length. -/
theorem c5_tlv_length_mismatch :
    (∀ (params : QuicTransportParameters) (id L v : Nat) (rest rest1 : List Nat),
      id < PARAMS.length → PARAMS.getD id .bytes = .int →
      id < 2 ^ 16 → L < 2 ^ 16 →
      pull_uint_var rest = .ok (v, rest1) →
      rest.length - rest1.length ≠ L →
      pullTPEntry params (encBe 2 id ++ encBe 2 L ++ rest)
        = .error .frameEncodingError) ∧
    (∀ (params : QuicTransportParameters) (L : Nat) (rest : List Nat),
      L < 2 ^ 16 → L ≠ 0 →
      pullTPEntry params (encBe 2 12 ++ encBe 2 L ++ rest)
        = .error .frameEncodingError) := by
  constructor
  · intro params id L v rest rest1 hid hkind hid16 hL16 hpull hmis
    simp only [pullTPEntry, List.append_assoc,
      pull_uintN_encBe 2 id (by norm_num; omega),
      pull_uintN_encBe 2 L (by norm_num; omega),
      pullTPValue, hid, if_true, hkind, hpull]
    rw [if_neg hmis]
  · intro params L rest hL16 hL0
    simp only [pullTPEntry, List.append_assoc,
      pull_uintN_encBe 2 12 (by norm_num),
      pull_uintN_encBe 2 L (by norm_num; omega),
      pullTPValue]
    rw [if_pos (show (12 : Nat) < PARAMS.length by norm_num [PARAMS])]
    rw [show PARAMS.getD 12 ParamKind.bytes = ParamKind.bool from rfl]
    show (if rest.length - rest.length = L then
        Except.ok (setParamBool 12 params, rest)
      else Except.error Err.frameEncodingError) = Except.error Err.frameEncodingError
    rw [if_neg (show ¬ (rest.length - rest.length = L) from by omega)]

/-- Witness for C8 at pid = 20, V = [1,2,3,4,5]. -/
theorem c8_transport_params_witness :
    (14 ≤ 20 ∧ 20 < 2 ^ 16 ∧ ([1, 2, 3, 4, 5] : List Nat).length ≤ 100) ∧
      pull_quic_transport_parameters (encBe 2 (10 + ([1, 2, 3, 4, 5] : List Nat).length) ++
          (encBe 2 20 ++ encBe 2 ([1, 2, 3, 4, 5] : List Nat).length ++
            ([1, 2, 3, 4, 5] ++ [0, 4, 0, 2, 64, 100])))
        = .ok ({ initial_max_data := some 100 }, []) :=
  ⟨⟨by norm_num, by norm_num, by norm_num⟩,
    c8_transport_params.2 20 [1, 2, 3, 4, 5] (by norm_num) (by norm_num) (by norm_num)⟩

/-- Witness for C5: an idle_timeout entry declaring length 2 whose varint
value consumes one byte, and a disable_migration entry declaring length 1. -/
theorem c5_tlv_length_mismatch_witness :
    (1 < PARAMS.length ∧ PARAMS.getD 1 .bytes = .int ∧
      pull_uint_var [5, 9] = .ok (5, [9]) ∧
      ([5, 9] : List Nat).length - ([9] : List Nat).length ≠ 2 ∧
      pullTPEntry {} (encBe 2 1 ++ encBe 2 2 ++ [5, 9])
        = .error .frameEncodingError) ∧
    (1 ≠ 0 ∧
      pullTPEntry {} (encBe 2 12 ++ encBe 2 1 ++ [0])
        = .error .frameEncodingError) :=
  ⟨⟨by norm_num [PARAMS], rfl, rfl, by norm_num,
    c5_tlv_length_mismatch.1 {} 1 2 5 [5, 9] [9] (by norm_num [PARAMS]) rfl
      (by norm_num) (by norm_num) rfl (by norm_num)⟩,
    ⟨by norm_num,
      c5_tlv_length_mismatch.2 {} 1 [0] (by norm_num) (by norm_num)⟩⟩

/-- `push_new_connection_id_frame` (packet.py lines 434-444): the
`assert len(stateless_reset_token) == 16` caller contract (spec:
FrameEncodingError), then the varint sequence number, the 1-byte CID
length, the CID bytes and the 16 token bytes. -/
def push_new_connection_id_frame (sequence_number : Nat) (connection_id : List Nat)
    (stateless_reset_token : List Nat) : Except Err (List Nat) :=
  if stateless_reset_token.length = 16 then
    match push_uint_var sequence_number with
    | .error err => .error err
    | .ok b1 =>
      match push_uintN 1 connection_id.length with
      | .error err => .error err
      | .ok b2 => .ok (b1 ++ b2 ++ connection_id ++ stateless_reset_token)
  else .error .frameEncodingError

/-- C6: serializing a NEW_CONNECTION_ID frame with a reset token that is not
exactly 16 bytes fails with FrameEncodingError; with a 16-byte token it
succeeds and writes the sequence-number varint, the 1-byte CID length, the
connection ID bytes and the 16 token bytes. -/
theorem c6_new_connection_id_token_length :
    (∀ (seq : Nat) (cid token : List Nat), token.length ≠ 16 →
      push_new_connection_id_frame seq cid token = .error .frameEncodingError) ∧
    (∀ (seq : Nat) (cid token : List Nat), token.length = 16 →
      seq ≤ 2 ^ 62 - 1 → cid.length < 256 →
      ∃ vb, push_uint_var seq = .ok vb ∧
        push_new_connection_id_frame seq cid token
          = .ok (vb ++ [cid.length] ++ cid ++ token)) := by
  constructor
  · intro seq cid token h
    simp [push_new_connection_id_frame, h]
  · intro seq cid token h16 hseq hcid
    obtain ⟨vb, hpush, _, _, _⟩ := pull_push_uint_var seq (by omega)
    refine ⟨vb, hpush, ?_⟩
    have hb2 : push_uintN 1 cid.length = .ok [cid.length] := by
      unfold push_uintN
      rw [if_pos (by norm_num; omega), encBe_eq_one, Nat.mod_eq_of_lt hcid]
    simp only [push_new_connection_id_frame, if_pos h16, hpush, hb2]

/-- Witness for C6: a 2-byte token fails, a 16-byte token succeeds. -/
theorem c6_new_connection_id_token_length_witness :
    (([1, 2] : List Nat).length ≠ 16 ∧
      push_new_connection_id_frame 7 [1, 2, 3] [1, 2] = .error .frameEncodingError) ∧
    ((List.replicate 16 9 : List Nat).length = 16 ∧ (7 : Nat) ≤ 2 ^ 62 - 1 ∧
      ([1, 2, 3] : List Nat).length < 256 ∧
      ∃ vb, push_uint_var 7 = .ok vb ∧
        push_new_connection_id_frame 7 [1, 2, 3] (List.replicate 16 9)
          = .ok (vb ++ [([1, 2, 3] : List Nat).length] ++ [1, 2, 3] ++
              List.replicate 16 9)) :=
  ⟨⟨by norm_num, c6_new_connection_id_token_length.1 7 [1, 2, 3] [1, 2] (by norm_num)⟩,
    ⟨by norm_num, by norm_num, by norm_num,
      c6_new_connection_id_token_length.2 7 [1, 2, 3] (List.replicate 16 9)
        (by norm_num) (by norm_num) (by norm_num)⟩⟩

/-- `QuicStreamFrame` (packet.py lines 377-381). -/
structure QuicStreamFrame where
  data : List Nat := []
  fin : Bool := false
  offset : Nat := 0
deriving DecidableEq, Repr

/-- `pull_crypto_frame` (packet.py lines 384-387): varint offset, varint
length, then `length` data bytes. -/
def pull_crypto_frame (s : List Nat) : Except Err (QuicStreamFrame × List Nat) :=
  match pull_uint_var s with
  | .error err => .error err
  | .ok (offset, s1) =>
    match pull_uint_var s1 with
    | .error err => .error err
    | .ok (length, s2) =>
      match pull_bytes length s2 with
      | .error err => .error err
      | .ok (data, s3) => .ok ({ offset := offset, data := data }, s3)

/-- `push_crypto_frame` (packet.py lines 390-399): the context manager pushes
the varint offset and a 2-byte zero placeholder, yields so the caller writes
the payload, then backpatches the placeholder with
`(bytes_written | 0x4000)`.  The net bytes written are the varint offset,
the 2-byte big-endian `payload.length ||| 0x4000`, then the payload. -/
def push_crypto_frame (offset : Nat) (payload : List Nat) : Except Err (List Nat) :=
  match push_uint_var offset with
  | .error err => .error err
  | .ok ob =>
    match push_uintN 2 (payload.length ||| 0x4000) with
    | .error err => .error err
    | .ok lb => .ok (ob ++ lb ++ payload)

/-- C10: for every offset (within the varint range) and every payload of at
most 0x3FFF bytes, writing a CRYPTO frame body with `push_crypto_frame`
(whose backpatched 2-byte field `bytes_written ||| 0x4000` reads back as a
2-byte varint equal to the payload length) and parsing with
`pull_crypto_frame` recovers exactly the original offset and payload; at
payload length 0x4000 the backpatched field is no longer well-formed — it
reads back as length 0 and the payload is not recovered. -/
theorem c10_crypto_frame_round_trip :
    (∀ (offset : Nat) (payload rest : List Nat),
      offset ≤ 2 ^ 62 - 1 → payload.length ≤ 0x3FFF →
      ∃ bs, push_crypto_frame offset payload = .ok bs ∧
        pull_crypto_frame (bs ++ rest)
          = .ok ({ data := payload, fin := false, offset := offset }, rest)) ∧
    (push_crypto_frame 0 (List.replicate 0x4000 0)
        = .ok ([0] ++ [64, 0] ++ List.replicate 0x4000 0) ∧
      pull_crypto_frame ([0] ++ [64, 0] ++ List.replicate 0x4000 0)
        = .ok ({ data := [], fin := false, offset := 0 },
            List.replicate 0x4000 0)) := by
  constructor
  · intro offset payload rest hoff hlen
    obtain ⟨ob, hob, hobp, _, _⟩ := pull_push_uint_var offset (by omega)
    have hor : payload.length ||| 0x4000 = 0x4000 + payload.length := by
      have h := Nat.mul_add_lt_is_or (i := 14) (b := payload.length) (by omega) 1
      have h14 : (2 : Nat) ^ 14 * 1 = 0x4000 := by norm_num
      rw [h14] at h
      rw [Nat.lor_comm]
      exact h.symm
    have hlb : push_uintN 2 (payload.length ||| 0x4000)
        = .ok (orFirst (1 * 64) (encBe 2 payload.length)) := by
      unfold push_uintN
      rw [if_pos (by omega)]
      rw [hor, encBe_eq_two, encBe_eq_two]
      simp only [orFirst]
      rw [lor_as_add (payload.length / 256 % 256)  1 (by omega)]
      have h1 : (0x4000 + payload.length) / 256 % 256
          = 1 * 64 + payload.length / 256 % 256 := by omega
      have h2 : (0x4000 + payload.length) % 256 = payload.length % 256 := by omega
      rw [h1, h2]
    refine ⟨ob ++ orFirst (1 * 64) (encBe 2 payload.length) ++ payload, ?_, ?_⟩
    · simp only [push_crypto_frame, hob, hlb]
    · simp only [List.append_assoc]
      simp only [pull_crypto_frame, hobp,
        pull_uint_var_class2 payload.length hlen,
        pull_bytes_append_of_eq payload.length payload rest rfl]
  · constructor
    · have h1 : (List.replicate 0x4000 (0 : Nat)).length ||| 0x4000 = 16384 := by
        rw [List.length_replicate]
        decide
      simp only [push_crypto_frame, h1]
      rw [show push_uint_var 0 = .ok [0] from rfl]
      rw [show push_uintN 2 16384 = .ok [64, 0] from by
        norm_num [push_uintN, encBe_eq_two]]
    · have ev0 : ∀ X : List Nat, pull_uint_var (0 :: X) = .ok (0, X) := fun X => by
        have hc := pull_uint_var_class1 0 (by norm_num) X
        simpa [orFirst, encBe_eq_one] using hc
      have ev64 : ∀ X : List Nat, pull_uint_var (64 :: 0 :: X) = .ok (0, X) := fun X => by
        have hc := pull_uint_var_class2 0 (by norm_num) X
        simpa [orFirst, encBe_eq_two] using hc
      simp only [List.cons_append, List.nil_append, List.append_assoc]
      simp only [pull_crypto_frame, ev0, ev64, pull_bytes_zero]

/-- Witness for C10 at offset 5, payload [1,2,3]. -/
theorem c10_crypto_frame_round_trip_witness :
    5 ≤ 2 ^ 62 - 1 ∧ ([1, 2, 3] : List Nat).length ≤ 0x3FFF ∧
      ∃ bs, push_crypto_frame 5 [1, 2, 3] = .ok bs ∧
        pull_crypto_frame (bs ++ [7])
          = .ok ({ data := [1, 2, 3], fin := false, offset := 5 }, [7]) :=
  ⟨by norm_num, by norm_num,
    c10_crypto_frame_round_trip.1 5 [1, 2, 3] [7] (by norm_num) (by norm_num)⟩

/-- A UTF-8 continuation byte (0x80..0xBF). -/
def utf8Cont (b : Nat) : Bool :=
  0x80 ≤ b && b ≤ 0xBF

/-- Modelled from the spec: Python's strict `bytes.decode("utf8")`, as a
standard strict UTF-8 decoder over byte lists: 1-4 byte sequences, with
overlong encodings, UTF-16 surrogates and code points above U+10FFFF
rejected (`none`). -/
def utf8Decode : List Nat → Option (List Char)
  | [] => some []
  | b :: rest =>
    if b < 0x80 then
      (utf8Decode rest).map (fun cs => Char.ofNat b :: cs)
    else if b < 0xC2 then none
    else if b ≤ 0xDF then
      match rest with
      | c1 :: rest2 =>
        if utf8Cont c1 then
          (utf8Decode rest2).map
            (fun cs => Char.ofNat ((b - 0xC0) * 0x40 + (c1 - 0x80)) :: cs)
        else none
      | [] => none
    else if b ≤ 0xEF then
      match rest with
      | c1 :: c2 :: rest3 =>
        if (if b = 0xE0 then decide (0xA0 ≤ c1 ∧ c1 ≤ 0xBF)
            else if b = 0xED then decide (0x80 ≤ c1 ∧ c1 ≤ 0x9F)
            else utf8Cont c1) && utf8Cont c2 then
          (utf8Decode rest3).map
            (fun cs => Char.ofNat ((b - 0xE0) * 0x1000 + (c1 - 0x80) * 0x40 +
              (c2 - 0x80)) :: cs)
        else none
      | _ => none
    else if b ≤ 0xF4 then
      match rest with
      | c1 :: c2 :: c3 :: rest4 =>
        if (if b = 0xF0 then decide (0x90 ≤ c1 ∧ c1 ≤ 0xBF)
            else if b = 0xF4 then decide (0x80 ≤ c1 ∧ c1 ≤ 0x8F)
            else utf8Cont c1) && utf8Cont c2 && utf8Cont c3 then
          (utf8Decode rest4).map
            (fun cs => Char.ofNat ((b - 0xF0) * 0x40000 + (c1 - 0x80) * 0x1000 +
              (c2 - 0x80) * 0x40 + (c3 - 0x80)) :: cs)
        else none
      | _ => none
    else none

/-- `decode_reason_phrase` (packet.py lines 447-451): a UnicodeDecodeError is
swallowed and replaced by the empty string. -/
def decode_reason_phrase (reason_bytes : List Nat) : String :=
  match utf8Decode reason_bytes with
  | some cs => String.mk cs
  | none => ""

/-- `pull_transport_close_frame` (packet.py lines 454-459). -/
def pull_transport_close_frame (s : List Nat) :
    Except Err ((Nat × Nat × String) × List Nat) :=
  match pull_uintN 2 s with
  | .error err => .error err
  | .ok (error_code, s1) =>
    match pull_uint_var s1 with
    | .error err => .error err
    | .ok (frame_type, s2) =>
      match pull_uint_var s2 with
      | .error err => .error err
      | .ok (reason_length, s3) =>
        match pull_bytes reason_length s3 with
        | .error err => .error err
        | .ok (rb, s4) =>
          .ok ((error_code, frame_type, decode_reason_phrase rb), s4)

/-- `pull_application_close_frame` (packet.py lines 472-476). -/
def pull_application_close_frame (s : List Nat) :
    Except Err ((Nat × String) × List Nat) :=
  match pull_uintN 2 s with
  | .error err => .error err
  | .ok (error_code, s1) =>
    match pull_uint_var s1 with
    | .error err => .error err
    | .ok (reason_length, s2) =>
      match pull_bytes reason_length s2 with
      | .error err => .error err
      | .ok (rb, s3) => .ok ((error_code, decode_reason_phrase rb), s3)

/-- C9: the close-frame parsers never fail on UTF-8 decoding: for every
reason-byte sequence the transport and application CLOSE frames parse
successfully with `decode_reason_phrase` applied to the reason bytes, which
returns the decoded string for valid UTF-8 and the empty string for invalid
UTF-8. -/
theorem c9_reason_phrase_leniency :
    ∀ (ec ft : Nat) (rb rest : List Nat),
      ec < 2 ^ 16 → ft ≤ 2 ^ 62 - 1 → rb.length ≤ 2 ^ 62 - 1 →
      ∃ ftb rlb, push_uint_var ft = .ok ftb ∧ push_uint_var rb.length = .ok rlb ∧
        pull_transport_close_frame (encBe 2 ec ++ ftb ++ rlb ++ (rb ++ rest))
          = .ok ((ec, ft, decode_reason_phrase rb), rest) ∧
        pull_application_close_frame (encBe 2 ec ++ rlb ++ (rb ++ rest))
          = .ok ((ec, decode_reason_phrase rb), rest) ∧
        (utf8Decode rb = none → decode_reason_phrase rb = "") ∧
        (∀ cs, utf8Decode rb = some cs → decode_reason_phrase rb = String.mk cs) := by
  intro ec ft rb rest hec hft hrb
  obtain ⟨ftb, hftb, hftbp, _, _⟩ := pull_push_uint_var ft (by omega)
  obtain ⟨rlb, hrlb, hrlbp, _, _⟩ := pull_push_uint_var rb.length (by omega)
  refine ⟨ftb, rlb, hftb, hrlb, ?_, ?_, ?_, ?_⟩
  · simp only [List.append_assoc]
    simp only [pull_transport_close_frame, pull_uintN_encBe 2 ec (by norm_num; omega),
      hftbp, hrlbp, pull_bytes_append_of_eq rb.length rb rest rfl]
  · simp only [List.append_assoc]
    simp only [pull_application_close_frame, pull_uintN_encBe 2 ec (by norm_num; omega),
      hrlbp, pull_bytes_append_of_eq rb.length rb rest rfl]
  · intro h
    simp [decode_reason_phrase, h]
  · intro cs h
    simp [decode_reason_phrase, h]

/-- Witness for C9 with the invalid UTF-8 reason bytes [0xFF]. -/
theorem c9_reason_phrase_leniency_witness :
    (7 < 2 ^ 16 ∧ 3 ≤ 2 ^ 62 - 1 ∧ ([0xFF] : List Nat).length ≤ 2 ^ 62 - 1 ∧
      utf8Decode [0xFF] = none ∧ decode_reason_phrase [0xFF] = "") ∧
    ∃ ftb rlb, push_uint_var 3 = .ok ftb ∧
      push_uint_var ([0xFF] : List Nat).length = .ok rlb ∧
      pull_transport_close_frame (encBe 2 7 ++ ftb ++ rlb ++ ([0xFF] ++ []))
        = .ok ((7, 3, decode_reason_phrase [0xFF]), []) ∧
      pull_application_close_frame (encBe 2 7 ++ rlb ++ ([0xFF] ++ []))
        = .ok ((7, decode_reason_phrase [0xFF]), []) ∧
      (utf8Decode [0xFF] = none → decode_reason_phrase [0xFF] = "") ∧
      (∀ cs, utf8Decode [0xFF] = some cs →
        decode_reason_phrase [0xFF] = String.mk cs) :=
  ⟨⟨by norm_num, by norm_num, by norm_num, rfl, rfl⟩,
    c9_reason_phrase_leniency 7 3 [0xFF] [] (by norm_num) (by norm_num) (by norm_num)⟩
